import Mathlib

/-!
Verification of the spatial-radius aggregation pipeline of `wod_prof_db`
(files `wod_prof_db/wod_db_utils.py` and `wod_prof_db/wod_prof_db.py`).

Numeric conventions of the shallow embedding:
* floating-point numbers are modelled exactly, over an arbitrary
  `LinearOrderedField` for the vertical-regridding core (instantiated at `ℚ`
  for concrete evaluation) and over `ℝ` for the geo/aggregation layer (which
  uses `sqrt`, `cos` and `π`);
* a NaN cell is modelled as `none : Option _`; a numpy masked array is a pair
  of a data list and a boolean mask list (`true` = masked/missing);
* a raised Python exception is modelled as `Except.error` / `Option.none` at
  the function boundary where it escapes.
-/

namespace WodProfDb

/-- Model of a numpy masked array: raw data plus mask (`true` = missing). -/
structure MArr (α : Type) where
  data : List α
  mask : List Bool
  deriving DecidableEq, Repr

/-- Number of valid (unmasked) entries: `np.count_nonzero(~arr.mask)`. -/
def validCount {α : Type} (a : MArr α) : ℕ :=
  a.mask.count false

/-! ### Stable sort used to model `np.argsort` followed by fancy indexing

`np.argsort` on a masked array orders by the data values with masked entries
placed last.  We model the combined `sidx = np.argsort(pres)`,
`pres, var = pres[sidx], var[sidx]` step as a stable sort of the zipped
sample records keyed on (pressure-mask, pressure-datum). -/

/-- Insert `a` into `l`, placing it before the first element `b` with
`le a b`; with a total `le` this realizes a stable insertion. -/
def ordInsert {β : Type} (le : β → β → Bool) (a : β) : List β → List β
  | [] => [a]
  | b :: l => if le a b then a :: b :: l else b :: ordInsert le a l

/-- Stable insertion sort with respect to a total boolean preorder `le`. -/
def stableSort {β : Type} (le : β → β → Bool) : List β → List β
  | [] => []
  | a :: l => ordInsert le a (stableSort le l)

/-! ### The vertical regridder `z_pinterp`

`z_pinterp(var, pres, std_z)` from `wod_db_utils.py`:

```
if np.count_nonzero(~var.mask) < 2:
    bad = np.empty((len(std_z),)); bad.fill(np.nan); return bad
else:
    if any(pres[1:] < pres[:-1]):
        sidx = np.argsort(pres)
        pres, var = pres[sidx], var[sidx]
    fp = pchip(pres[~var.mask], var.compressed(), extrapolate=False)
    return fp(std_z)
```

`pchip` is `scipy.interpolate.PchipInterpolator`, which raises `ValueError`
unless its abscissae are strictly increasing (and at least 2 of them), and
with `extrapolate=False` evaluates to NaN strictly outside the data range.
A raised `ValueError` is modelled as `Option.none` for the whole call. -/

section Regrid

variable {α : Type} [LinearOrderedField α]

/-- One level of a profile zipped across variable and pressure:
variable datum/mask and pressure datum/mask. -/
structure Samp (α : Type) where
  v : α
  vm : Bool
  p : α
  pm : Bool
  deriving DecidableEq, Repr

/-- Zip a variable and a pressure masked array into per-level samples. -/
def samples (var pres : MArr α) : List (Samp α) :=
  List.zipWith (fun a b => ⟨a.1, a.2, b.1, b.2⟩)
    (var.data.zip var.mask) (pres.data.zip pres.mask)

/-- Condition `any(pres[1:] < pres[:-1])` on a masked array: a comparison
with a masked operand yields a masked (falsy) element, so only adjacent
pairs of unmasked pressures can contribute `True`. -/
def needsSort (pres : MArr α) : Bool :=
  let pm := pres.data.zip pres.mask
  (pm.zip (pm.drop 1)).any fun q =>
    !q.1.2 && !q.2.2 && decide (q.2.1 < q.1.1)

/-- Sort key of `np.argsort` on a masked pressure array: order by the data
value, masked entries after every unmasked one (numpy fills them with the
maximal fill value). -/
def sampLE (a b : Samp α) : Bool :=
  if a.pm then b.pm else (b.pm || decide (a.p ≤ b.p))

/-- Model of `sidx = np.argsort(pres); pres, var = pres[sidx], var[sidx]`. -/
def sortSamples (l : List (Samp α)) : List (Samp α) :=
  stableSort sampLE l

/-- The sample list after the conditional sorting step of `z_pinterp`. -/
def chosenSamples (var pres : MArr α) : List (Samp α) :=
  if needsSort pres then sortSamples (samples var pres) else samples var pres

/-- The samples actually handed to `pchip`: `pres[~var.mask]` and
`var.compressed()` select by the mask of `var` alone. -/
def selSamples (var pres : MArr α) : List (Samp α) :=
  (chosenSamples var pres).filter fun q => !q.vm

/-- Branch-free `np.sign`. -/
def sgn (x : α) : α :=
  if x < 0 then -1 else if x = 0 then 0 else 1

/-- End-slope rule `_edge_case` of `scipy.interpolate.PchipInterpolator`. -/
def pchipEdge (h0 h1 m0 m1 : α) : α :=
  let d := ((2 * h0 + h1) * m0 - h0 * m1) / (h0 + h1)
  if sgn d ≠ sgn m0 then 0
  else if sgn m0 ≠ sgn m1 ∧ |d| > 3 * |m0| then 3 * m0
  else d

/-- Derivative values of `PchipInterpolator._find_derivatives` at the
breakpoints `xs` for data `ys` (Fritsch–Carlson weighted harmonic means,
with the two-point case degenerating to the single linear slope). -/
def pchipDerivs (xs ys : List α) : List α :=
  let n := xs.length
  let h := fun i => xs.getD (i + 1) 0 - xs.getD i 0
  let m := fun i => (ys.getD (i + 1) 0 - ys.getD i 0) / h i
  if n = 2 then [m 0, m 0]
  else
    (List.range n).map fun i =>
      if i = 0 then pchipEdge (h 0) (h 1) (m 0) (m 1)
      else if i = n - 1 then pchipEdge (h (n - 2)) (h (n - 3)) (m (n - 2)) (m (n - 3))
      else
        if sgn (m (i - 1)) ≠ sgn (m i) ∨ m (i - 1) = 0 ∨ m i = 0 then 0
        else
          let w1 := 2 * h i + h (i - 1)
          let w2 := h i + 2 * h (i - 1)
          (w1 + w2) / (w1 / m (i - 1) + w2 / m i)

/-- Index of the interpolation interval containing `z`: the largest
`i < xs.length - 1` with `xs[i] ≤ z` (0 when none qualifies). -/
def findInterval (xs : List α) (z : α) : ℕ :=
  (((List.range (xs.length - 1)).filter fun j => decide (xs.getD j 0 ≤ z)).getLast?).getD 0

/-- Evaluate the pchip interpolant with breakpoints `xs`, data `ys` and
derivative list `d` at `z`; `extrapolate=False` yields NaN (`none`)
strictly outside `[xs.head, xs.last]`. -/
def pchipEval (xs ys d : List α) (z : α) : Option α :=
  if z < xs.headD 0 ∨ xs.getLastD 0 < z then none
  else
    let i := findInterval xs z
    let x0 := xs.getD i 0
    let x1 := xs.getD (i + 1) 0
    let hstep := x1 - x0
    let s := (z - x0) / hstep
    let y0 := ys.getD i 0
    let y1 := ys.getD (i + 1) 0
    let d0 := d.getD i 0
    let d1 := d.getD (i + 1) 0
    some (y0 * (2 * s ^ 3 - 3 * s ^ 2 + 1) + hstep * d0 * (s ^ 3 - 2 * s ^ 2 + s) +
      y1 * (-2 * s ^ 3 + 3 * s ^ 2) + hstep * d1 * (s ^ 3 - s ^ 2))

/-- Boolean strict-increase test on consecutive elements (the
`x must be strictly increasing` validation of `PchipInterpolator`). -/
def strictIncB : List α → Bool
  | [] => true
  | [_] => true
  | a :: b :: t => decide (a < b) && strictIncB (b :: t)

/-- Boolean non-decrease test on consecutive elements. -/
def nonDecB : List α → Bool
  | [] => true
  | [_] => true
  | a :: b :: t => decide (a ≤ b) && nonDecB (b :: t)

/-- The regridder `z_pinterp(var, pres, std_z)`.  Result `none` models a
raised `ValueError` (fewer than two or non-strictly-increasing abscissae);
`some rows` is the regridded vector over `std_z`, with NaN cells as `none`. -/
def z_pinterp (var pres : MArr α) (std_z : List α) : Option (List (Option α)) :=
  if validCount var < 2 then
    some (std_z.map fun _ => none)
  else
    let sel := selSamples var pres
    let xs := sel.map (·.p)
    let ys := sel.map (·.v)
    if 2 ≤ xs.length ∧ strictIncB xs = true then
      let d := pchipDerivs xs ys
      some (std_z.map fun z => pchipEval xs ys d z)
    else none

end Regrid

/-! ### Ingestion quality policy `assess_prof` (`wod_prof_db.py`)

```
def assess_prof(profile, g_crit=.5, QS=3):
    p_test = len(profile.p().compressed()) / profile.n_levels() < g_crit
    s_test = len(profile.s().compressed()) / profile.n_levels() < g_crit
    t_test = len(profile.t().compressed()) / profile.n_levels() < g_crit
    if p_test or t_test or s_test:
        return False
    if profile.t_profile_qc() is None or profile.s_profile_qc() is None:
        return False
    if profile.t_profile_qc() < QS or profile.s_profile_qc() < QS:
        return True
    else:
        return False
```
-/

/-- The parts of a `wodpy` profile object consumed by `assess_prof`. -/
structure WodpyProfile where
  p : MArr ℚ
  s : MArr ℚ
  t : MArr ℚ
  n_levels : ℕ
  t_profile_qc : Option ℤ
  s_profile_qc : Option ℤ
  deriving DecidableEq, Repr

/-- Embedding of `assess_prof` with its default thresholds (coverage
fraction `g_crit = .5`, QC threshold `QS = 3`). -/
def assess_prof (profile : WodpyProfile) (g_crit : ℚ := 1/2) (QS : ℤ := 3) : Bool :=
  let p_test := decide ((validCount profile.p : ℚ) / (profile.n_levels : ℚ) < g_crit)
  let s_test := decide ((validCount profile.s : ℚ) / (profile.n_levels : ℚ) < g_crit)
  let t_test := decide ((validCount profile.t : ℚ) / (profile.n_levels : ℚ) < g_crit)
  if p_test || t_test || s_test then false
  else
    match profile.t_profile_qc, profile.s_profile_qc with
    | none, _ => false
    | _, none => false
    | some tq, some sq => if tq < QS ∨ sq < QS then true else false

/-- Number of levels at which pressure, salinity and temperature are all
simultaneously valid (unmasked). -/
def simulValidCount (profile : WodpyProfile) : ℕ :=
  ((profile.p.mask.zip (profile.s.mask.zip profile.t.mask)).filter
    fun q => !q.1 && !q.2.1 && !q.2.2).length

/-- Usability as worded by the specification (for comparison with
`assess_prof`): at least half the levels valid for pressure, salinity and
temperature simultaneously, and BOTH QC scores present and strictly
below 3. -/
def assess_prof_spec (profile : WodpyProfile) : Bool :=
  decide ((1 : ℚ)/2 ≤ (simulValidCount profile : ℚ) / (profile.n_levels : ℚ)) &&
    (match profile.t_profile_qc, profile.s_profile_qc with
     | some tq, some sq => decide (tq < 3) && decide (sq < 3)
     | _, _ => false)

/-! ### Geographic metric and radius filter (`wod_db_utils.py`) -/

/-- Meters per degree of longitude and latitude at latitude `alat` degrees
(American Practical Navigator closed form):

```
rlat = alat*np.pi/180
hx = 111415.13 * np.cos(rlat) - 94.55 * np.cos(3 * rlat)
hy = 111132.09 - 566.05 * np.cos(2 * rlat) + 1.2 * np.cos(4 * rlat)
```
-/
noncomputable def lonlat_metrics (alat : ℝ) : ℝ × ℝ :=
  let rlat := alat * Real.pi / 180
  (111415.13 * Real.cos rlat - 94.55 * Real.cos (3 * rlat),
   111132.09 - 566.05 * Real.cos (2 * rlat) + 1.2 * Real.cos (4 * rlat))

/-- Convert degree increments to meters at latitude `alat`:
`dx = dlon * hx`, `dy = dlat * hy`. -/
noncomputable def diffxy_from_difflonlat (dlon dlat alat : ℝ) : ℝ × ℝ :=
  (dlon * (lonlat_metrics alat).1, dlat * (lonlat_metrics alat).2)

/-- Elementwise radius filter `lonlat_inside_km_radius(lons, lats, pos,
kmrad)`: planar Euclidean distance in km from each catalog point to `pos`,
with the metric evaluated at the latitude `pos[1]` of the center, compared
strictly against `kmrad`. -/
noncomputable def lonlat_inside_km_radius (lons lats : List ℝ) (pos : ℝ × ℝ) (kmrad : ℝ) :
    List Bool :=
  List.zipWith (fun lo la =>
    let dxy := diffxy_from_difflonlat (lo - pos.1) (la - pos.2) pos.2
    decide (Real.sqrt (dxy.1 ^ 2 + dxy.2 ^ 2) / 1000 < kmrad)) lons lats

/-! ### Catalog records, quality control and the derived-variable engine -/

/-- The catalog fields consumed by the aggregation pipeline (a row of the
structured `dbase` array). -/
structure WodRecord where
  lon : ℝ
  lat : ℝ
  pt_qc : ℤ
  ps_qc : ℤ
  dpm : ℝ
  pres : MArr ℝ
  sal : MArr ℝ
  temp : MArr ℝ

/-- Quality gate `quik_quality_control(dbase, dp_crit=10.)`: keep rows with
both WOD profile flags equal to 0 and mean pressure spacing at most
`dp_crit`. -/
noncomputable def quik_quality_control (dbase : List WodRecord) (dp_crit : ℝ := 10) : List WodRecord :=
  dbase.filter fun r => decide (r.pt_qc = 0) && decide (r.ps_qc = 0) && decide (r.dpm ≤ dp_crit)

/-- Result tuple of `gsw.Nsquared(..., alphabeta=True)`: buoyancy frequency
squared, midpoint pressure axis, and the alpha/beta coefficients (positions
0, 1, 2, 3 of the Python tuple). -/
structure N2Tup where
  N2 : MArr ℝ
  p_mid : MArr ℝ
  alpha : MArr ℝ
  beta : MArr ℝ

/-- The external equation-of-state library (`gsw`), modelled as a record of
pure functions: `SA_from_SP(sal, pres, lon, lat)`, `CT_from_t(SA, temp,
pres)`, `Nsquared(SA, CT, pres, lat, alphabeta=True)`. -/
structure N2Engine where
  SA_from_SP : MArr ℝ → MArr ℝ → ℝ → ℝ → MArr ℝ
  CT_from_t : MArr ℝ → MArr ℝ → MArr ℝ → MArr ℝ
  Nsquared : MArr ℝ → MArr ℝ → MArr ℝ → ℝ → N2Tup

/-- Absolute salinity of one record (`SA_dat[n]`). -/
def saOf (E : N2Engine) (r : WodRecord) : MArr ℝ :=
  E.SA_from_SP r.sal r.pres r.lon r.lat

/-- Conservative temperature of one record (`CT_dat[n]`). -/
def ctOf (E : N2Engine) (r : WodRecord) : MArr ℝ :=
  E.CT_from_t (saOf E r) r.temp r.pres

/-- Derived buoyancy tuple of one record (`N2_dat[n]`). -/
def n2Of (E : N2Engine) (r : WodRecord) : N2Tup :=
  E.Nsquared (saOf E r) (ctOf E r) r.pres r.lat

/-- Python exceptions that can escape the pipeline. -/
inductive PyErr where
  | nameError
  | unboundLocalError
  | typeError
  | valueError
  deriving DecidableEq, Repr

/-- Embedding of `derive_variables(dbase, which_ones)`: computes the per-record derived
lists, then returns the `N2` list for `which_ones == 'N2'`; for
`which_ones == 'all'` the return statement references the undefined
`Sig_dat` and raises `NameError`; any other selector falls off the end of
the function and returns Python `None` (modelled `Option.none`). -/
def derive_variables (E : N2Engine) (dbase : List WodRecord) (which_ones : String := "all") :
    Except PyErr (Option (List N2Tup)) :=
  let N2_dat := dbase.map fun r => n2Of E r
  if which_ones = "all" then .error .nameError
  else if which_ones = "N2" then .ok (some N2_dat)
  else .ok none

/-- Transpose a `(3, L)` block into an `(L, 3)` block: the effect of
`np.moveaxis(..., 1, -1)` on one profile of the reshaped stack. -/
def transpose3 {β : Type} : List β → List β → List β → List (List β)
  | a :: as, b :: bs, c :: cs => [a, b, c] :: transpose3 as bs cs
  | _, _, _ => []

/-- Combined `np.reshape(..., (P, 3, L))` + `np.moveaxis(..., 1, -1)` on the
row stack: each consecutive triple of channel rows becomes one profile's
`(level, channel)` block. -/
def regroup3 {β : Type} : List (List β) → List (List (List β))
  | r1 :: r2 :: r3 :: t => transpose3 r1 r2 r3 :: regroup3 t
  | _ => []

/-- Per-point regridded stack, `(profile, level, channel)` indexed. -/
abbrev Grid3 := List (List (Option ℝ))

/-- Embedding of `wrap_regrid_2_std_z(vars_arr, p_arr, std_z, which_ones)`: for the
`'N2'` selector, regrid the channels `var_arr[:1] + var_arr[2:]` (that is
`N2`, `alpha`, `beta`) of every profile against the midpoint pressure axis
`var_arr[1]`, stack the rows, reshape to `(profiles, 3, levels)` and move
the channel axis last.  `p_arr` is accepted but never read.  For any other
selector the local `reg_arr` is unbound at the return statement
(`UnboundLocalError`); iterating a `None` `vars_arr` raises `TypeError`; a
`ValueError` from `pchip` inside `z_pinterp` propagates. -/
noncomputable def wrap_regrid_2_std_z (vars_arr : Option (List N2Tup)) (p_arr : List (MArr ℝ))
    (std_z : List ℝ) (which_ones : String) : Except PyErr (List Grid3) :=
  if which_ones = "N2" then
    match vars_arr with
    | none => .error .typeError
    | some l =>
      match (l.flatMap fun t =>
          [z_pinterp t.N2 t.p_mid std_z, z_pinterp t.alpha t.p_mid std_z,
            z_pinterp t.beta t.p_mid std_z]).mapM id with
      | none => .error .valueError
      | some rows => .ok (regroup3 rows)
  else .error .unboundLocalError

/-! ### NaN-ignoring statistics (`np.nanmedian`, `np.nanstd`,
`np.nanquantile` along the profile axis) -/

/-- Ascending sort of real values. -/
noncomputable def sortR (l : List ℝ) : List ℝ :=
  stableSort (fun a b => decide (a ≤ b)) l

/-- Median with linear averaging of the two central order statistics. -/
noncomputable def medianR (l : List ℝ) : ℝ :=
  let s := sortR l
  let n := l.length
  if n % 2 = 1 then s.getD (n / 2) 0 else (s.getD (n / 2 - 1) 0 + s.getD (n / 2) 0) / 2

/-- Population standard deviation (`ddof=0`). -/
noncomputable def stdR (l : List ℝ) : ℝ :=
  Real.sqrt ((l.map fun x => (x - l.sum / (l.length : ℝ)) ^ 2).sum / (l.length : ℝ))

/-- Linear-interpolation quantile (numpy default method). -/
noncomputable def quantileR (q : ℝ) (l : List ℝ) : ℝ :=
  let s := sortR l
  let h := q * ((l.length : ℝ) - 1)
  let i := ⌊h⌋₊
  s.getD i 0 + (h - (i : ℝ)) * (s.getD (i + 1) (s.getD i 0) - s.getD i 0)

/-- Apply a statistic to the valid entries of a cell column, NaN when every
entry is NaN. -/
noncomputable def nanApply (f : List ℝ → ℝ) (col : List (Option ℝ)) : Option ℝ :=
  let vals := col.filterMap id
  if vals.isEmpty then none else some (f vals)

/-- A NaN-ignoring statistic of a `(profile, level, channel)` stack along
the profile axis, producing a `(level, channel)` grid. -/
noncomputable def stat_axis0 (f : List ℝ → ℝ) (vg : List Grid3) : Grid3 :=
  match vg with
  | [] => []
  | v0 :: _ =>
    (List.range v0.length).map fun lv =>
      (List.range ((v0.getD lv []).length)).map fun c =>
        nanApply f (vg.map fun m => (m.getD lv []).getD c none)

/-! ### The aggregation loop `search_assemble_radavg` -/

/-- Boolean-mask indexing `arr[mask]`. -/
def applyMask {β : Type} (l : List β) (mask : List Bool) : List β :=
  (l.zip mask).filterMap fun q => if q.2 then some q.1 else none

/-- The predicate deciding membership of one catalog record in the radius
filter around `pos` (the scalar restriction of `lonlat_inside_km_radius`). -/
noncomputable def inside_rec (pos : ℝ × ℝ) (kmrad : ℝ) (r : WodRecord) : Bool :=
  decide (Real.sqrt (((r.lon - pos.1) * (lonlat_metrics pos.2).1) ^ 2 +
    ((r.lat - pos.2) * (lonlat_metrics pos.2).2) ^ 2) / 1000 < kmrad)

/-- The quality-controlled spatial subset of the catalog at one query
point: `wod_loc_subset = quik_quality_control(wod_dbase[locs])` with
`locs = lonlat_inside_km_radius(wod_dbase['lon'], wod_dbase['lat'],
(lonc, latc), kmrad)`. -/
noncomputable def qc_subset (wod_dbase : List WodRecord) (kmrad lonc latc : ℝ) :
    List WodRecord :=
  quik_quality_control (applyMask wod_dbase
    (lonlat_inside_km_radius (wod_dbase.map (·.lon)) (wod_dbase.map (·.lat)) (lonc, latc) kmrad))

/-- Work done for one query point `(lonc, latc)` of the loop body of
`search_assemble_radavg`: spatial filter, quality control, and — when the
subset is non-empty — derivation, regridding and the four NaN-ignoring
statistics.  `Option.none` records that the point was skipped (the `else`
branch of the source is commented out: nothing is appended). -/
noncomputable def point_result (E : N2Engine) (wod_dbase : List WodRecord) (std_z : List ℝ)
    (which_ones : String) (kmrad : ℝ) (lonc latc : ℝ) :
    Except PyErr (Option (Grid3 × Grid3 × Grid3 × Grid3)) :=
  let sub := qc_subset wod_dbase kmrad lonc latc
  if 0 < sub.length then
    match derive_variables E sub which_ones with
    | .error e => .error e
    | .ok vars_arr =>
      match wrap_regrid_2_std_z vars_arr (sub.map (·.pres)) std_z which_ones with
      | .error e => .error e
      | .ok vars_grd =>
        .ok (some (stat_axis0 medianR vars_grd, stat_axis0 stdR vars_grd,
          stat_axis0 (quantileR (5/100)) vars_grd, stat_axis0 (quantileR (95/100)) vars_grd))
  else .ok none

/-- The query-point loop: accumulates the four statistic rows in query
order, skipping points whose filtered subset is empty. -/
noncomputable def radavg_loop (E : N2Engine) (wod_dbase : List WodRecord) (std_z : List ℝ)
    (which_ones : String) (kmrad : ℝ) :
    List (ℝ × ℝ) → Except PyErr (List Grid3 × List Grid3 × List Grid3 × List Grid3)
  | [] => .ok ([], [], [], [])
  | pt :: rest =>
    match point_result E wod_dbase std_z which_ones kmrad pt.1 pt.2 with
    | .error e => .error e
    | .ok none => radavg_loop E wod_dbase std_z which_ones kmrad rest
    | .ok (some s) =>
      match radavg_loop E wod_dbase std_z which_ones kmrad rest with
      | .error e => .error e
      | .ok acc => .ok (s.1 :: acc.1, s.2.1 :: acc.2.1, s.2.2.1 :: acc.2.2.1, s.2.2.2 :: acc.2.2.2)

/-- Default standard grid `np.arange(0, 6000 + 5, 5)`. -/
noncomputable def default_std_z : List ℝ :=
  (List.range 1201).map fun k => 5 * (k : ℝ)

/-- Embedding of `search_assemble_radavg(wod_dbase, lon_arr, lat_arr, std_z=None,
which_ones='N2', kmrad=1e2)`. -/
noncomputable def search_assemble_radavg (E : N2Engine) (wod_dbase : List WodRecord)
    (lon_arr lat_arr : List ℝ) (std_z : Option (List ℝ) := none)
    (which_ones : String := "N2") (kmrad : ℝ := 100) :
    Except PyErr (List Grid3 × List Grid3 × List Grid3 × List Grid3) :=
  radavg_loop E wod_dbase (std_z.getD default_std_z) which_ones kmrad (lon_arr.zip lat_arr)

/-! ### Derived definitions used only in statements and proofs -/

/-- The pressures of the valid samples of a profile, in catalog order:
pressure data at exactly the positions where the variable is unmasked. -/
def validPres {α : Type} [LinearOrderedField α] (var pres : MArr α) : List α :=
  ((samples var pres).filter fun q => !q.vm).map (·.p)

/-- The `(pressure, value)` pairs at the var-valid positions of a profile,
in catalog order, regardless of the pressure mask. -/
def validPairs {α : Type} [LinearOrderedField α] (var pres : MArr α) : List (α × α) :=
  ((samples var pres).filter fun q => !q.vm).map fun q => (q.p, q.v)

/-- The profile after the `argsort`-by-pressure reordering of `z_pinterp`,
as a pair (reordered variable, reordered pressure). -/
def sorted_by_pres {α : Type} [LinearOrderedField α] (var pres : MArr α) : MArr α × MArr α :=
  let s := sortSamples (samples var pres)
  (⟨s.map (·.v), s.map (·.vm)⟩, ⟨s.map (·.p), s.map (·.pm)⟩)

/-- Regrid the three channels of one profile's derived tuple against its
own midpoint pressure axis (the per-profile contribution of
`wrap_regrid_2_std_z` for the `'N2'` selector). -/
noncomputable def regrid3 (std_z : List ℝ) (t : N2Tup) : Option Grid3 :=
  match z_pinterp t.N2 t.p_mid std_z, z_pinterp t.alpha t.p_mid std_z,
      z_pinterp t.beta t.p_mid std_z with
  | some r1, some r2, some r3 => some (transpose3 r1 r2 r3)
  | _, _, _ => none

/-- Shape predicate for a `(level, channel)` grid. -/
def grid_dims (L C : ℕ) (m : Grid3) : Prop :=
  m.length = L ∧ ∀ row ∈ m, row.length = C

/-- A degenerate stand-in for the external `gsw` library, used to evaluate
the pipeline on concrete inputs: every derived quantity is an empty masked
array. -/
def constEngine : N2Engine where
  SA_from_SP := fun _ _ _ _ => ⟨[], []⟩
  CT_from_t := fun _ _ _ => ⟨[], []⟩
  Nsquared := fun _ _ _ _ => ⟨⟨[], []⟩, ⟨[], []⟩, ⟨[], []⟩, ⟨[], []⟩⟩

/-- A concrete catalog record sitting exactly at the origin and passing the
quality gate, used for concrete runs of the pipeline. -/
def originRecord : WodRecord where
  lon := 0
  lat := 0
  pt_qc := 0
  ps_qc := 0
  dpm := 0
  pres := ⟨[], []⟩
  sal := ⟨[], []⟩
  temp := ⟨[], []⟩

/-! ### Correctness of the stable sort -/

theorem ordInsert_perm {β : Type} (le : β → β → Bool) (a : β) (l : List β) :
    (ordInsert le a l).Perm (a :: l) := by
  induction l with
  | nil => exact List.Perm.refl _
  | cons b t ih =>
    by_cases h : le a b = true
    · simp [ordInsert, h]
    · simp only [ordInsert, h]
      rw [if_neg]
      · exact (ih.cons b).trans (List.Perm.swap a b t)
      · simp [h]

theorem stableSort_perm {β : Type} (le : β → β → Bool) (l : List β) :
    (stableSort le l).Perm l := by
  induction l with
  | nil => exact List.Perm.refl _
  | cons a t ih =>
    exact (ordInsert_perm le a (stableSort le t)).trans (ih.cons a)

theorem mem_ordInsert {β : Type} (le : β → β → Bool) (a x : β) (l : List β) :
    x ∈ ordInsert le a l ↔ x = a ∨ x ∈ l :=
  ((ordInsert_perm le a l).mem_iff).trans (by simp)

theorem ordInsert_pairwise {β : Type} (le : β → β → Bool)
    (trans : ∀ a b c, le a b = true → le b c = true → le a c = true)
    (total : ∀ a b, le a b = true ∨ le b a = true) (a : β) (l : List β)
    (h : l.Pairwise (fun x y => le x y = true)) :
    (ordInsert le a l).Pairwise (fun x y => le x y = true) := by
  induction l with
  | nil => simp [ordInsert]
  | cons b t ih =>
    rw [List.pairwise_cons] at h
    obtain ⟨hbt, ht⟩ := h
    by_cases hab : le a b = true
    · simp only [ordInsert, hab, if_true]
      refine List.Pairwise.cons ?_ (List.Pairwise.cons hbt ht)
      intro y hy
      rcases List.mem_cons.1 hy with hy | hy
      · subst hy; exact hab
      · exact trans a b y hab (hbt y hy)
    · simp only [ordInsert, hab, if_false]
      refine List.Pairwise.cons ?_ (ih ht)
      intro y hy
      rcases (mem_ordInsert le a y t).1 hy with rfl | hy
      · rcases total y b with h1 | h1
        · exact absurd h1 hab
        · exact h1
      · exact hbt y hy

theorem stableSort_pairwise {β : Type} (le : β → β → Bool)
    (trans : ∀ a b c, le a b = true → le b c = true → le a c = true)
    (total : ∀ a b, le a b = true ∨ le b a = true) (l : List β) :
    (stableSort le l).Pairwise (fun x y => le x y = true) := by
  induction l with
  | nil => simp [stableSort]
  | cons a t ih => exact ordInsert_pairwise le trans total a (stableSort le t) ih

/-! ### Lemmas about the regridder -/

section RegridLemmas

variable {α : Type}

theorem getD_map_of_lt {β γ : Type} (f : β → γ) (l : List β) (i : ℕ) (hi : i < l.length)
    (b : β) (c : γ) : (l.map f).getD i c = f (l.getD i b) := by
  rw [List.getD_eq_getElem?_getD, List.getD_eq_getElem?_getD, List.getElem?_map,
    List.getElem?_eq_getElem hi]
  simp

theorem sampLE_trans [LinearOrderedField α] (a b c : Samp α) (h1 : sampLE a b = true) (h2 : sampLE b c = true) :
    sampLE a c = true := by
  simp only [sampLE] at h1 h2 ⊢
  by_cases ha : a.pm <;> by_cases hb : b.pm <;> by_cases hc : c.pm <;>
    simp_all
  exact le_trans h1 h2

theorem sampLE_total [LinearOrderedField α] (a b : Samp α) : sampLE a b = true ∨ sampLE b a = true := by
  simp only [sampLE]
  by_cases ha : a.pm <;> by_cases hb : b.pm <;> simp_all
  exact le_total a.p b.p

theorem sortSamples_perm [LinearOrderedField α] (l : List (Samp α)) : (sortSamples l).Perm l :=
  stableSort_perm _ _

theorem sortSamples_pairwise [LinearOrderedField α] (l : List (Samp α)) :
    (sortSamples l).Pairwise (fun x y => sampLE x y = true) :=
  stableSort_pairwise _ sampLE_trans sampLE_total l

theorem samples_proj : ∀ (a : List α) (b : List Bool) (c : List α) (d : List Bool),
    a.length = b.length → a.length = c.length → c.length = d.length →
    (samples ⟨a, b⟩ ⟨c, d⟩).map (·.v) = a ∧ (samples ⟨a, b⟩ ⟨c, d⟩).map (·.vm) = b ∧
      (samples ⟨a, b⟩ ⟨c, d⟩).map (·.p) = c ∧ (samples ⟨a, b⟩ ⟨c, d⟩).map (·.pm) = d := by
  intro a
  induction a with
  | nil =>
    intro b c d hb hc hd
    cases b <;> cases c <;> cases d <;> simp_all [samples]
  | cons a0 t0 ih =>
    intro b c d hb hc hd
    cases b with
    | nil => simp at hb
    | cons b0 bt =>
      cases c with
      | nil => simp at hc
      | cons c0 ct =>
        cases d with
        | nil => simp at hd
        | cons d0 dt =>
          simp only [List.length_cons, Nat.succ.injEq] at hb hc hd
          have := ih bt ct dt hb hc hd
          simp_all [samples, List.zip_cons_cons]

theorem samples_of_maps (s : List (Samp α)) :
    samples ⟨s.map (·.v), s.map (·.vm)⟩ ⟨s.map (·.p), s.map (·.pm)⟩ = s := by
  induction s with
  | nil => rfl
  | cons q t ih => simpa [samples, List.zip_cons_cons] using ih

theorem pairwise_adj {β : Type} {R : β → β → Prop} :
    ∀ (l : List β), l.Pairwise R → ∀ q ∈ l.zip (l.drop 1), R q.1 q.2 := by
  intro l
  induction l with
  | nil => intro _ q hq; simp at hq
  | cons a t ih =>
    intro hp q hq
    cases t with
    | nil => simp at hq
    | cons b t2 =>
      rw [List.pairwise_cons] at hp
      obtain ⟨hab, hbt⟩ := hp
      simp only [List.drop_succ_cons, List.drop_zero, List.zip_cons_cons] at hq
      rcases List.mem_cons.1 hq with rfl | hq
      · exact hab b (by simp)
      · exact ih hbt q (by simpa using hq)

theorem needsSort_sorted [LinearOrderedField α] (s : List (Samp α))
    (hs : s.Pairwise fun x y => sampLE x y = true) :
    needsSort ⟨s.map (·.p), s.map (·.pm)⟩ = false := by
  simp only [needsSort, List.zip_map']
  rw [← List.map_drop, List.zip_map]
  rw [List.any_eq_false]
  intro x hx
  rw [List.mem_map] at hx
  obtain ⟨q, hq, rfl⟩ := hx
  have hle : sampLE q.1 q.2 = true := pairwise_adj s hs q hq
  simp only [sampLE] at hle
  simp only [Prod.map]
  by_cases h1 : q.1.pm <;> by_cases h2 : q.2.pm <;> simp_all [not_lt]

theorem strictIncB_pairwise [LinearOrderedField α] : ∀ l : List α, strictIncB l = true → l.Pairwise (· < ·) := by
  intro l
  induction l with
  | nil => intro _; exact List.Pairwise.nil
  | cons a t ih =>
    intro h
    cases t with
    | nil => simp
    | cons b t2 =>
      simp only [strictIncB, Bool.and_eq_true, decide_eq_true_eq] at h
      obtain ⟨hab, ht⟩ := h
      have hp := ih ht
      refine List.Pairwise.cons ?_ hp
      intro y hy
      rcases List.mem_cons.1 hy with rfl | hy
      · exact hab
      · rw [List.pairwise_cons] at hp
        exact lt_trans hab (hp.1 y hy)

theorem headD_le_of_pairwise [LinearOrderedField α] (l : List α) (h : l.Pairwise (· < ·)) :
    ∀ y ∈ l, l.headD 0 ≤ y := by
  cases l with
  | nil => intro y hy; simp at hy
  | cons a t =>
    intro y hy
    rw [List.pairwise_cons] at h
    rcases List.mem_cons.1 hy with rfl | hy
    · simp
    · simpa using le_of_lt (h.1 y hy)

theorem le_getLastD_of_pairwise [LinearOrderedField α] :
    ∀ (l : List α), l.Pairwise (· < ·) → ∀ d, ∀ y ∈ l, y ≤ l.getLastD d := by
  intro l
  induction l with
  | nil => intro _ d y hy; simp at hy
  | cons a t ih =>
    intro h d y hy
    rw [List.pairwise_cons] at h
    cases t with
    | nil =>
      rcases List.mem_cons.1 hy with rfl | hy
      · simp
      · simp at hy
    | cons b t2 =>
      rw [List.getLastD_cons]
      rcases List.mem_cons.1 hy with rfl | hy
      · exact le_trans (le_of_lt (h.1 b (by simp))) (ih h.2 y b (by simp))
      · exact ih h.2 y y hy

theorem z_pinterp_some_length [LinearOrderedField α] (var pres : MArr α) (g : List α) (rows : List (Option α))
    (h : z_pinterp var pres g = some rows) : rows.length = g.length := by
  simp only [z_pinterp] at h
  by_cases h1 : validCount var < 2
  · rw [if_pos h1] at h
    obtain rfl := Option.some.injEq _ _ ▸ h
    simp_all
  · rw [if_neg h1] at h
    by_cases h2 : 2 ≤ ((selSamples var pres).map (·.p)).length ∧
        strictIncB ((selSamples var pres).map (·.p)) = true
    · rw [if_pos h2] at h
      obtain rfl := Option.some.injEq _ _ ▸ h
      simp_all
    · rw [if_neg h2] at h
      exact absurd h (by simp)

theorem getLastD_mem [LinearOrderedField α] :
    ∀ (l : List α) (d : α), l ≠ [] → l.getLastD d ∈ l := by
  intro l
  induction l with
  | nil => intro d h; exact absurd rfl h
  | cons a t ih =>
    intro d _
    cases t with
    | nil => simp
    | cons b t2 =>
      rw [List.getLastD_cons]
      exact List.mem_cons.2 (Or.inr (ih a (by simp)))

theorem z_pinterp_degenerate [LinearOrderedField α] (var pres : MArr α) (g : List α)
    (h : validCount var < 2) : z_pinterp var pres g = some (g.map fun _ => none) := by
  simp only [z_pinterp, if_pos h]

theorem selSamples_perm_filter [LinearOrderedField α] (var pres : MArr α) :
    (selSamples var pres).Perm ((samples var pres).filter fun q => !q.vm) := by
  simp only [selSamples, chosenSamples]
  by_cases h : needsSort pres = true
  · rw [if_pos h]
    exact (sortSamples_perm (samples var pres)).filter _
  · rw [if_neg h]

theorem xs_perm_validPres [LinearOrderedField α] (var pres : MArr α) :
    ((selSamples var pres).map (·.p)).Perm (validPres var pres) :=
  (selSamples_perm_filter var pres).map _

theorem z_pinterp_outside [LinearOrderedField α] (var pres : MArr α) (g : List α)
    (rows : List (Option α)) (hr : z_pinterp var pres g = some rows)
    (i : ℕ) (hi : i < g.length) (pmin pmax : α)
    (hminm : pmin ∈ validPres var pres) (hminlb : ∀ w ∈ validPres var pres, pmin ≤ w)
    (hmaxm : pmax ∈ validPres var pres) (hmaxub : ∀ w ∈ validPres var pres, w ≤ pmax)
    (hout : g.getD i 0 < pmin ∨ pmax < g.getD i 0) :
    rows.getD i none = none := by
  simp only [z_pinterp] at hr
  by_cases h1 : validCount var < 2
  · rw [if_pos h1, Option.some.injEq] at hr
    subst hr
    rw [getD_map_of_lt _ g i hi 0 none]
  · rw [if_neg h1] at hr
    by_cases h2 : 2 ≤ ((selSamples var pres).map (·.p)).length ∧
        strictIncB ((selSamples var pres).map (·.p)) = true
    · rw [if_pos h2, Option.some.injEq] at hr
      subst hr
      rw [getD_map_of_lt _ g i hi 0 none]
      have hperm := xs_perm_validPres var pres
      have hpw := strictIncB_pairwise _ h2.2
      have hne : ((selSamples var pres).map (·.p)) ≠ [] := by
        intro hcon
        rw [hcon] at h2
        simp at h2
      rw [pchipEval, if_pos]
      rcases hout with hlt | hgt
      · left
        have hmem : ((selSamples var pres).map (·.p)).headD 0 ∈
            ((selSamples var pres).map (·.p)) := by
          cases hx : ((selSamples var pres).map (·.p)) with
          | nil => exact absurd hx hne
          | cons x0 t => simp
        exact lt_of_lt_of_le hlt (hminlb _ (hperm.mem_iff.1 hmem))
      · right
        have hmem : ((selSamples var pres).map (·.p)).getLastD 0 ∈
            ((selSamples var pres).map (·.p)) := getLastD_mem _ 0 hne
        exact lt_of_le_of_lt (hmaxub _ (hperm.mem_iff.1 hmem)) hgt
    · rw [if_neg h2] at hr
      exact absurd hr (by simp)

theorem z_pinterp_sort_invariant [LinearOrderedField α] (var pres : MArr α) (g : List α)
    (h1 : var.data.length = var.mask.length) (h2 : var.data.length = pres.data.length)
    (h3 : pres.data.length = pres.mask.length) (hs : needsSort pres = true) :
    z_pinterp var pres g =
      z_pinterp (sorted_by_pres var pres).1 (sorted_by_pres var pres).2 g := by
  obtain ⟨vd, vmm⟩ := var
  obtain ⟨pd, pmm⟩ := pres
  simp only at h1 h2 h3
  have hproj := samples_proj vd vmm pd pmm h1 h2 h3
  have hperm := sortSamples_perm (samples ⟨vd, vmm⟩ ⟨pd, pmm⟩)
  have hvc : validCount (⟨(sortSamples (samples ⟨vd, vmm⟩ ⟨pd, pmm⟩)).map (·.v),
      (sortSamples (samples ⟨vd, vmm⟩ ⟨pd, pmm⟩)).map (·.vm)⟩ : MArr α) =
      validCount (⟨vd, vmm⟩ : MArr α) := by
    simp only [validCount]
    have hc : ((sortSamples (samples ⟨vd, vmm⟩ ⟨pd, pmm⟩)).map (·.vm)).count false =
        ((samples ⟨vd, vmm⟩ ⟨pd, pmm⟩).map (·.vm)).count false :=
      (hperm.map _).count_eq false
    rw [hc, hproj.2.1]
  have hns : needsSort (⟨(sortSamples (samples ⟨vd, vmm⟩ ⟨pd, pmm⟩)).map (·.p),
      (sortSamples (samples ⟨vd, vmm⟩ ⟨pd, pmm⟩)).map (·.pm)⟩ : MArr α) = false :=
    needsSort_sorted _ (sortSamples_pairwise _)
  have hsel : selSamples (⟨(sortSamples (samples ⟨vd, vmm⟩ ⟨pd, pmm⟩)).map (·.v),
      (sortSamples (samples ⟨vd, vmm⟩ ⟨pd, pmm⟩)).map (·.vm)⟩ : MArr α)
      (⟨(sortSamples (samples ⟨vd, vmm⟩ ⟨pd, pmm⟩)).map (·.p),
      (sortSamples (samples ⟨vd, vmm⟩ ⟨pd, pmm⟩)).map (·.pm)⟩ : MArr α) =
      selSamples (⟨vd, vmm⟩ : MArr α) (⟨pd, pmm⟩ : MArr α) := by
    simp only [selSamples, chosenSamples, hns, hs, if_true, Bool.false_eq_true, if_false,
      samples_of_maps]
  simp only [sorted_by_pres]
  simp only [z_pinterp, hvc, hsel]

theorem nonDecB_head [LinearOrderedField α] (a b : α) (t : List α)
    (h : nonDecB (a :: b :: t) = true) : a ≤ b ∧ nonDecB (b :: t) = true := by
  simp only [nonDecB, Bool.and_eq_true, decide_eq_true_eq] at h
  exact ⟨h.1, h.2⟩

theorem needsSort_eq_false_of_nonDec [LinearOrderedField α] :
    ∀ (pd : List α) (pm : List Bool), nonDecB pd = true → needsSort ⟨pd, pm⟩ = false := by
  intro pd
  induction pd with
  | nil => intro pm _; cases pm <;> rfl
  | cons a t ih =>
    intro pm hnd
    cases pm with
    | nil => rfl
    | cons x pm2 =>
      cases t with
      | nil => rfl
      | cons b t2 =>
        cases pm2 with
        | nil => rfl
        | cons y pm3 =>
          obtain ⟨hab, hrest⟩ := nonDecB_head a b t2 hnd
          have hih := ih (y :: pm3) hrest
          simp only [needsSort, List.zip_cons_cons, List.drop_succ_cons, List.drop_zero,
            List.any_cons, Bool.or_eq_false_iff] at hih ⊢
          constructor
          · simp [not_lt.2 hab]
          · exact hih

theorem samples_pres_mask_invar [LinearOrderedField α] :
    ∀ (vd : List α) (vmm : List Bool) (pd : List α) (pm1 pm2 : List Bool),
    ((samples ⟨vd, vmm⟩ ⟨pd, pm1⟩).filter fun q => !q.vm).map (fun q => (q.p, q.v)) =
      ((samples ⟨vd, vmm⟩ ⟨pd, pm2⟩).filter fun q => !q.vm).map (fun q => (q.p, q.v)) ∨
    pm1.length < pd.length ∨ pm2.length < pd.length ∨ vd.length ≠ vmm.length := by
  intro vd
  induction vd with
  | nil =>
    intro vmm pd pm1 pm2
    left
    cases vmm <;> rfl
  | cons v0 vt ih =>
    intro vmm pd pm1 pm2
    cases vmm with
    | nil => right; right; right; simp
    | cons m0 mt =>
      cases pd with
      | nil => left; rfl
      | cons p0 pt =>
        cases pm1 with
        | nil => right; left; simp
        | cons q0 qt =>
          cases pm2 with
          | nil => right; right; left; simp
          | cons r0 rt =>
            rcases ih mt pt qt rt with hih | hih | hih | hih
            · left
              simp only [samples, List.zip_cons_cons, List.zipWith_cons_cons] at hih ⊢
              by_cases hm : m0 = true
              · subst hm
                simpa using hih
              · rw [Bool.not_eq_true] at hm
                subst hm
                simpa using hih
            · right; left; simpa using Nat.succ_lt_succ hih
            · right; right; left; simpa using Nat.succ_lt_succ hih
            · right; right; right; simpa using hih

theorem z_pinterp_pres_mask_invar [LinearOrderedField α] (vd : List α) (vmm : List Bool)
    (pd : List α) (pm1 pm2 : List Bool) (g : List α)
    (hv : vd.length = vmm.length) (hl1 : pm1.length = pd.length) (hl2 : pm2.length = pd.length)
    (hnd : nonDecB pd = true) :
    z_pinterp ⟨vd, vmm⟩ ⟨pd, pm1⟩ g = z_pinterp ⟨vd, vmm⟩ ⟨pd, pm2⟩ g := by
  have hns1 : needsSort (⟨pd, pm1⟩ : MArr α) = false := needsSort_eq_false_of_nonDec pd pm1 hnd
  have hns2 : needsSort (⟨pd, pm2⟩ : MArr α) = false := needsSort_eq_false_of_nonDec pd pm2 hnd
  rcases samples_pres_mask_invar vd vmm pd pm1 pm2 with hmap | h | h | h
  · have hxs : (selSamples (⟨vd, vmm⟩ : MArr α) ⟨pd, pm1⟩).map (·.p) =
        (selSamples (⟨vd, vmm⟩ : MArr α) ⟨pd, pm2⟩).map (·.p) := by
      simp only [selSamples, chosenSamples, hns1, hns2, Bool.false_eq_true, if_false]
      have hfst := congrArg (List.map Prod.fst) hmap
      simpa [List.map_map, Function.comp] using hfst
    have hys : (selSamples (⟨vd, vmm⟩ : MArr α) ⟨pd, pm1⟩).map (·.v) =
        (selSamples (⟨vd, vmm⟩ : MArr α) ⟨pd, pm2⟩).map (·.v) := by
      simp only [selSamples, chosenSamples, hns1, hns2, Bool.false_eq_true, if_false]
      have hsnd := congrArg (List.map Prod.snd) hmap
      simpa [List.map_map, Function.comp] using hsnd
    simp only [z_pinterp, hxs, hys]
  · omega
  · omega
  · omega

end RegridLemmas

/-! ### Claims C3, C4, C5, C6, C10 -/

/-- C3, counterexample: a profile with full coverage, temperature QC 0 and
salinity QC 5 is accepted by `assess_prof` (the source requires only ONE of
the two QC scores to be below the threshold: `t < QS or s < QS`), while the
claim's conjunctive reading rejects it.  The spec's coverage wording also
differs (simultaneous vs. per-variable coverage), but this single input
already falsifies the biconditional. -/
theorem claim_C3_cex :
    assess_prof ⟨⟨[1, 1], [false, false]⟩, ⟨[1, 1], [false, false]⟩, ⟨[1, 1], [false, false]⟩,
        2, some 0, some 5⟩ = true ∧
    assess_prof_spec ⟨⟨[1, 1], [false, false]⟩, ⟨[1, 1], [false, false]⟩,
        ⟨[1, 1], [false, false]⟩, 2, some 0, some 5⟩ = false := by
  constructor
  · norm_num [assess_prof, validCount]
  · norm_num [assess_prof_spec]

/-- C3, amended: `assess_prof` (defaults `g_crit=.5`, `QS=3`) accepts a
profile iff pressure, salinity and temperature EACH have at least half
their levels valid (separately, not simultaneously), both QC scores are
present, and AT LEAST ONE of the temperature/salinity QC scores is strictly
below 3. -/
theorem claim_C3_amended (prof : WodpyProfile) :
    assess_prof prof = true ↔
      ((1 : ℚ)/2 ≤ (validCount prof.p : ℚ) / (prof.n_levels : ℚ) ∧
       (1 : ℚ)/2 ≤ (validCount prof.s : ℚ) / (prof.n_levels : ℚ) ∧
       (1 : ℚ)/2 ≤ (validCount prof.t : ℚ) / (prof.n_levels : ℚ)) ∧
      ∃ tq sq, prof.t_profile_qc = some tq ∧ prof.s_profile_qc = some sq ∧
        (tq < 3 ∨ sq < 3) := by
  simp only [assess_prof]
  by_cases hp : (validCount prof.p : ℚ) / (prof.n_levels : ℚ) < 1/2 <;>
    by_cases hs : (validCount prof.s : ℚ) / (prof.n_levels : ℚ) < 1/2 <;>
      by_cases ht : (validCount prof.t : ℚ) / (prof.n_levels : ℚ) < 1/2 <;>
        rcases htq : prof.t_profile_qc with _ | tq <;>
          rcases hsq : prof.s_profile_qc with _ | sq <;>
            simp_all [not_lt]

/-- C4, counterexample: a profile with two valid samples at equal pressures
(10 and 10).  The sort condition does not trigger (no strict descent), so
`pchip` receives non-strictly-increasing abscissae and raises `ValueError`
(modelled `none`): for the grid level 20, strictly outside the valid
pressure range [10, 10], no not-a-number row is returned — the call raises
instead of returning. -/
theorem claim_C4_cex :
    z_pinterp (⟨[1, 2], [false, false]⟩ : MArr ℚ) ⟨[10, 10], [false, false]⟩ [20] = none ∧
    2 ≤ validCount (⟨[1, 2], [false, false]⟩ : MArr ℚ) ∧
    validPres (⟨[1, 2], [false, false]⟩ : MArr ℚ) ⟨[10, 10], [false, false]⟩ = [10, 10] := by
  refine ⟨by decide, by decide, by decide⟩

/-- C4, amended: whenever `z_pinterp` returns a row vector (the
interpolator did not raise), every standard-grid level strictly outside the
closed interval spanned by the pressures at the profile's valid samples is
not-a-number; no extrapolated value is ever produced there. -/
theorem claim_C4_amended {α : Type} [LinearOrderedField α] (var pres : MArr α) (std_z : List α)
    (rows : List (Option α)) (hr : z_pinterp var pres std_z = some rows)
    (i : ℕ) (hi : i < std_z.length) (pmin pmax : α)
    (hminm : pmin ∈ validPres var pres) (hminlb : ∀ w ∈ validPres var pres, pmin ≤ w)
    (hmaxm : pmax ∈ validPres var pres) (hmaxub : ∀ w ∈ validPres var pres, w ≤ pmax)
    (hout : std_z.getD i 0 < pmin ∨ pmax < std_z.getD i 0) :
    rows.getD i none = none :=
  z_pinterp_outside var pres std_z rows hr i hi pmin pmax hminm hminlb hmaxm hmaxub hout

/-- C4, witness: profile with values [1, 2] at pressures [10, 20] and grid
[25]; level 25 lies above the valid range and the returned row is NaN
there. -/
theorem claim_C4_witness : ([none] : List (Option ℚ)).getD 0 none = none :=
  claim_C4_amended (⟨[1, 2], [false, false]⟩ : MArr ℚ) ⟨[10, 20], [false, false]⟩ [25] [none]
    (by decide) 0 (by decide) 10 20 (by decide) (by decide) (by decide) (by decide)
    (Or.inr (by decide))

/-- C5: with fewer than 2 valid (unmasked) samples in the variable,
`z_pinterp` returns — without raising — a vector of not-a-number over the
whole standard grid, of length equal to the grid's, for every pressure
sequence. -/
theorem claim_C5 {α : Type} [LinearOrderedField α] (var pres : MArr α) (std_z : List α)
    (h : validCount var < 2) :
    z_pinterp var pres std_z = some (std_z.map fun _ => none) ∧
      (std_z.map fun _ => (none : Option α)).length = std_z.length :=
  ⟨z_pinterp_degenerate var pres std_z h, by simp⟩

/-- C5, witness: a variable with exactly one valid sample. -/
theorem claim_C5_witness :
    z_pinterp (⟨[1, 2, 3], [false, true, true]⟩ : MArr ℚ) ⟨[9, 8, 7], [false, false, false]⟩
        [0, 5, 10] = some ([0, 5, 10].map fun _ => none) ∧
      (([0, 5, 10] : List ℚ).map fun _ => (none : Option ℚ)).length =
        ([0, 5, 10] : List ℚ).length :=
  claim_C5 _ _ _ (by decide)

/-- C6, counterexample to the claim as stated (invariance for EVERY profile
whose pressure axis is not non-decreasing): pressure data [10, 50, 30] with
the 50 masked.  The axis is not non-decreasing, but numpy's
`any(pres[1:] < pres[:-1])` sees only masked (falsy) comparisons and skips
the sort, handing `pchip` the unsorted abscissae [10, 50, 30] (`ValueError`,
modelled `none`); on the pre-sorted pairs (correspondence, including masks,
preserved) the interpolation succeeds.  The two results differ. -/
theorem claim_C6_cex :
    z_pinterp (⟨[1, 2, 3], [false, false, false]⟩ : MArr ℚ)
        ⟨[10, 50, 30], [false, true, false]⟩ [15] = none ∧
    (z_pinterp (⟨[1, 3, 2], [false, false, false]⟩ : MArr ℚ)
        ⟨[10, 30, 50], [false, false, true]⟩ [15]).isSome = true ∧
    nonDecB ([10, 50, 30] : List ℚ) = false := by
  refine ⟨by decide, by decide, by decide⟩

/-- C6, amended: the invariance holds whenever the source's sort condition
triggers — an adjacent strictly-descending pair of unmasked pressures.
Then `z_pinterp` equals `z_pinterp` on the same (pressure, value, masks)
quadruples stably pre-sorted by pressure ascending (masked pressures last);
in particular the spec's concrete instance holds: pressures [50, 10, 30]
with values [5, 1, 3] give the same regrid as [10, 30, 50] with [1, 3, 5],
for every standard grid. -/
theorem claim_C6_amended :
    (∀ (α : Type) [LinearOrderedField α] (var pres : MArr α) (g : List α),
      var.data.length = var.mask.length → var.data.length = pres.data.length →
      pres.data.length = pres.mask.length → needsSort pres = true →
      z_pinterp var pres g =
        z_pinterp (sorted_by_pres var pres).1 (sorted_by_pres var pres).2 g) ∧
    (∀ g : List ℚ,
      z_pinterp (⟨[5, 1, 3], [false, false, false]⟩ : MArr ℚ)
          ⟨[50, 10, 30], [false, false, false]⟩ g =
        z_pinterp (⟨[1, 3, 5], [false, false, false]⟩ : MArr ℚ)
          ⟨[10, 30, 50], [false, false, false]⟩ g) := by
  constructor
  · intro α _ var pres g h1 h2 h3 hs
    exact z_pinterp_sort_invariant var pres g h1 h2 h3 hs
  · intro g
    have h := z_pinterp_sort_invariant (⟨[5, 1, 3], [false, false, false]⟩ : MArr ℚ)
      ⟨[50, 10, 30], [false, false, false]⟩ g (by decide) (by decide) (by decide) (by decide)
    rw [show sorted_by_pres (⟨[5, 1, 3], [false, false, false]⟩ : MArr ℚ)
        ⟨[50, 10, 30], [false, false, false]⟩ =
        ((⟨[1, 3, 5], [false, false, false]⟩ : MArr ℚ),
         (⟨[10, 30, 50], [false, false, false]⟩ : MArr ℚ)) from by decide] at h
    exact h

/-- C6, witness: the sort-triggered general part applied to the spec's
concrete unsorted profile at grid [15]. -/
theorem claim_C6_witness :
    z_pinterp (⟨[5, 1, 3], [false, false, false]⟩ : MArr ℚ)
        ⟨[50, 10, 30], [false, false, false]⟩ [15] =
      z_pinterp (sorted_by_pres (⟨[5, 1, 3], [false, false, false]⟩ : MArr ℚ)
          ⟨[50, 10, 30], [false, false, false]⟩).1
        (sorted_by_pres (⟨[5, 1, 3], [false, false, false]⟩ : MArr ℚ)
          ⟨[50, 10, 30], [false, false, false]⟩).2 [15] :=
  claim_C6_amended.1 ℚ _ _ [15] (by decide) (by decide) (by decide) (by decide)

/-- C10: sample validity comes from the variable's mask alone.  (1) The
(pressure, value) pairs handed to the interpolator are, up to the sorting
permutation, exactly the pairs at the positions where the variable is
unmasked — the pressure mask does not influence the selection.  (2) On a
non-decreasing pressure axis (where the sort step cannot trigger) the
pressure mask is entirely irrelevant: any two mask vectors give identical
results, so a position with missing pressure but valid variable is used as
an interpolation abscissa with its underlying datum. -/
theorem claim_C10 :
    (∀ (α : Type) [LinearOrderedField α] (var pres : MArr α),
      ((selSamples var pres).map fun q => (q.p, q.v)).Perm (validPairs var pres)) ∧
    (∀ (α : Type) [LinearOrderedField α] (vd : List α) (vmm : List Bool) (pd : List α)
      (pm1 pm2 : List Bool) (g : List α),
      vd.length = vmm.length → pm1.length = pd.length → pm2.length = pd.length →
      nonDecB pd = true →
      z_pinterp ⟨vd, vmm⟩ ⟨pd, pm1⟩ g = z_pinterp ⟨vd, vmm⟩ ⟨pd, pm2⟩ g) := by
  constructor
  · intro α _ var pres
    exact (selSamples_perm_filter var pres).map _
  · intro α _ vd vmm pd pm1 pm2 g hv h1 h2 hnd
    exact z_pinterp_pres_mask_invar vd vmm pd pm1 pm2 g hv h1 h2 hnd

/-- C10, witness: fully masked pressures give the same regrid as fully
valid pressures — the pressure mask is never consulted for selection. -/
theorem claim_C10_witness :
    z_pinterp (⟨[1, 2], [false, false]⟩ : MArr ℚ) ⟨[10, 20], [true, true]⟩ [15] =
      z_pinterp (⟨[1, 2], [false, false]⟩ : MArr ℚ) ⟨[10, 20], [false, false]⟩ [15] :=
  claim_C10.2 ℚ [1, 2] [false, false] [10, 20] [true, true] [false, false] [15]
    (by decide) (by decide) (by decide) (by decide)

/-! ### Lemmas about the geographic filter and claim C7 -/

theorem getD_zipWith {β γ δ : Type} (f : β → γ → δ) :
    ∀ (as : List β) (bs : List γ) (i : ℕ), i < as.length → i < bs.length →
    ∀ (da : β) (db : γ) (dc : δ),
    (List.zipWith f as bs).getD i dc = f (as.getD i da) (bs.getD i db) := by
  intro as
  induction as with
  | nil => intro bs i hi; simp at hi
  | cons a at2 ih =>
    intro bs i hi hbi da db dc
    cases bs with
    | nil => simp at hbi
    | cons b bt =>
      cases i with
      | zero => rfl
      | succ j =>
        simp only [List.zipWith_cons_cons, List.getD_cons_succ]
        exact ih bt j (by simpa using hi) (by simpa using hbi) da db dc

/-- C7: the radius filter is elementwise.  The mask of
`lonlat_inside_km_radius` has one entry per zipped catalog point, an empty
catalog gives an empty mask, and entry `i` is `true` exactly when the
planar distance — angular deltas to the center scaled by
`lonlat_metrics` at the center's latitude, combined as a Euclidean norm
and divided by 1000 — is strictly less than `kmrad`. -/
theorem claim_C7 (pos : ℝ × ℝ) (kmrad : ℝ) :
    lonlat_inside_km_radius [] [] pos kmrad = [] ∧
    (∀ lons lats : List ℝ,
      (lonlat_inside_km_radius lons lats pos kmrad).length = min lons.length lats.length) ∧
    ∀ (lons lats : List ℝ) (i : ℕ), i < lons.length → i < lats.length →
      ((lonlat_inside_km_radius lons lats pos kmrad).getD i false = true ↔
        Real.sqrt (((lons.getD i 0 - pos.1) * (lonlat_metrics pos.2).1) ^ 2 +
          ((lats.getD i 0 - pos.2) * (lonlat_metrics pos.2).2) ^ 2) / 1000 < kmrad) := by
  refine ⟨rfl, ?_, ?_⟩
  · intro lons lats
    simp [lonlat_inside_km_radius]
  · intro lons lats i hi1 hi2
    rw [lonlat_inside_km_radius, getD_zipWith _ lons lats i hi1 hi2 0 0 false]
    simp only [diffxy_from_difflonlat]
    exact decide_eq_true_iff

/-- C7, witness: a catalog point exactly at the center is inside any
positive radius. -/
theorem claim_C7_witness :
    (lonlat_inside_km_radius [0] [0] (0, 0) 1).getD 0 false = true := by
  rw [(claim_C7 (0, 0) 1).2.2 [0] [0] 0 (by norm_num) (by norm_num)]
  norm_num [Real.sqrt_zero]

/-! ### Lemmas about the aggregation loop -/

theorem point_result_skip (E : N2Engine) (wod_dbase : List WodRecord) (std_z : List ℝ)
    (which_ones : String) (kmrad lonc latc : ℝ)
    (h : qc_subset wod_dbase kmrad lonc latc = []) :
    point_result E wod_dbase std_z which_ones kmrad lonc latc = .ok none := by
  simp only [point_result, h]
  rfl

theorem point_result_ok_none_iff (E : N2Engine) (wod_dbase : List WodRecord) (std_z : List ℝ)
    (which_ones : String) (kmrad lonc latc : ℝ)
    (h : point_result E wod_dbase std_z which_ones kmrad lonc latc = .ok none) :
    qc_subset wod_dbase kmrad lonc latc = [] := by
  simp only [point_result] at h
  by_cases hlen : 0 < (qc_subset wod_dbase kmrad lonc latc).length
  · exfalso
    rw [if_pos hlen] at h
    revert h
    cases derive_variables E (qc_subset wod_dbase kmrad lonc latc) which_ones with
    | error e => simp
    | ok va =>
      intro h
      dsimp only at h
      rcases hwr : wrap_regrid_2_std_z va
          (List.map (fun x => x.pres) (qc_subset wod_dbase kmrad lonc latc)) std_z which_ones
        with e2 | vg <;> rw [hwr] at h <;> simp at h
  · rw [if_neg hlen] at h
    exact List.length_eq_zero.1 (by omega)

theorem point_result_config_err (E : N2Engine) (wod_dbase : List WodRecord) (std_z : List ℝ)
    (which_ones : String) (kmrad lonc latc : ℝ)
    (hw : which_ones ≠ "N2") (hne : qc_subset wod_dbase kmrad lonc latc ≠ []) :
    ∃ e, point_result E wod_dbase std_z which_ones kmrad lonc latc = .error e ∧
      (e = PyErr.nameError ∨ e = PyErr.unboundLocalError) := by
  have hlen : 0 < (qc_subset wod_dbase kmrad lonc latc).length :=
    List.length_pos.2 hne
  simp only [point_result, if_pos hlen]
  by_cases ha : which_ones = "all"
  · refine ⟨PyErr.nameError, ?_, Or.inl rfl⟩
    simp [derive_variables, ha]
  · refine ⟨PyErr.unboundLocalError, ?_, Or.inr rfl⟩
    simp only [derive_variables, if_neg ha, if_neg hw]
    simp [wrap_regrid_2_std_z, hw]

theorem radavg_loop_config_err (E : N2Engine) (wod_dbase : List WodRecord) (std_z : List ℝ)
    (which_ones : String) (kmrad : ℝ) (hw : which_ones ≠ "N2") :
    ∀ pts : List (ℝ × ℝ), (∃ pt ∈ pts, qc_subset wod_dbase kmrad pt.1 pt.2 ≠ []) →
    ∃ e, radavg_loop E wod_dbase std_z which_ones kmrad pts = .error e ∧
      (e = PyErr.nameError ∨ e = PyErr.unboundLocalError) := by
  intro pts
  induction pts with
  | nil => intro h; simp at h
  | cons pt rest ih =>
    intro h
    by_cases hpt : qc_subset wod_dbase kmrad pt.1 pt.2 = []
    · have hrest : ∃ q ∈ rest, qc_subset wod_dbase kmrad q.1 q.2 ≠ [] := by
        rcases h with ⟨q, hq, hqn⟩
        rcases List.mem_cons.1 hq with rfl | hq
        · exact absurd hpt hqn
        · exact ⟨q, hq, hqn⟩
      obtain ⟨e, he, hek⟩ := ih hrest
      refine ⟨e, ?_, hek⟩
      simp only [radavg_loop, point_result_skip E wod_dbase std_z which_ones kmrad pt.1 pt.2 hpt]
      exact he
    · obtain ⟨e, he, hek⟩ := point_result_config_err E wod_dbase std_z which_ones kmrad
        pt.1 pt.2 hw hpt
      refine ⟨e, ?_, hek⟩
      simp only [radavg_loop, he]

/-- C8: for every channel selector other than `'N2'`, as soon as some query
point has a non-empty filtered subset the whole aggregation aborts with an
error raised between the derived-variable stage and the regridding stage —
`NameError` from the `'all'` return of `derive_variables`, or
`UnboundLocalError` at the head of `wrap_regrid_2_std_z` — and never with
the interpolator's `ValueError`: the failure is a configuration error at
the stage boundary, not inside `z_pinterp`. -/
theorem claim_C8 (E : N2Engine) (wod_dbase : List WodRecord) (lon_arr lat_arr : List ℝ)
    (std_z : Option (List ℝ)) (which_ones : String) (kmrad : ℝ)
    (hw : which_ones ≠ "N2")
    (hne : ∃ pt ∈ lon_arr.zip lat_arr, qc_subset wod_dbase kmrad pt.1 pt.2 ≠ []) :
    ∃ e, search_assemble_radavg E wod_dbase lon_arr lat_arr std_z which_ones kmrad =
        .error e ∧ e ≠ PyErr.valueError ∧
      (e = PyErr.nameError ∨ e = PyErr.unboundLocalError) := by
  obtain ⟨e, he, hek⟩ := radavg_loop_config_err E wod_dbase (std_z.getD default_std_z)
    which_ones kmrad hw (lon_arr.zip lat_arr) hne
  refine ⟨e, he, ?_, hek⟩
  rcases hek with rfl | rfl <;> simp

/-! ### A concrete run: one record at the origin, query point at the
origin -/

theorem inside_origin (kmrad : ℝ) (hk : 0 < kmrad) :
    lonlat_inside_km_radius [0] [0] (0, 0) kmrad = [true] := by
  simp only [lonlat_inside_km_radius, diffxy_from_difflonlat, List.zipWith]
  norm_num [Real.sqrt_zero]
  exact hk

theorem qc_subset_origin : qc_subset [originRecord] 100 0 0 = [originRecord] := by
  simp only [qc_subset, originRecord, List.map]
  rw [show lonlat_inside_km_radius [0] [0] (0, 0) 100 = [true] from inside_origin 100 (by norm_num)]
  simp only [applyMask, List.zip_cons_cons, List.zip_nil_right, List.filterMap]
  simp only [quik_quality_control, List.filter_cons, List.filter_nil]
  norm_num [decide_eq_true_eq]

/-- C8, witness: the selector `'X'` with a non-empty subset at the single
query point aborts with a configuration error. -/
theorem claim_C8_witness :
    ∃ e, search_assemble_radavg constEngine [originRecord] [0] [0] (some [0]) "X" 100 =
        .error e ∧ e ≠ PyErr.valueError ∧
      (e = PyErr.nameError ∨ e = PyErr.unboundLocalError) :=
  claim_C8 constEngine [originRecord] [0] [0] (some [0]) "X" 100 (by decide)
    ⟨(0, 0), by simp, by rw [qc_subset_origin]; simp⟩

/-! ### Claim C1: empty filtered subset -/

/-- C1, counterexample: with an empty catalog the single query point has an
empty filtered subset, and the run returns four EMPTY row lists — no
all-not-a-number row is recorded for the point (the source's `else` branch
is commented out), contradicting the claimed NaN-row bookkeeping. -/
theorem claim_C1_cex :
    search_assemble_radavg constEngine [] [5] [5] (some [0, 5]) "N2" 100 =
      .ok ([], [], [], []) := by
  rfl

/-- C1, amended: a query point whose spatially filtered and quality-gated
subset is empty is skipped — nothing is appended to any of the four
outputs, no exception is raised, and the run continues with the remaining
query points unchanged. -/
theorem claim_C1_amended (E : N2Engine) (wod_dbase : List WodRecord) (lons lats : List ℝ)
    (std_z : Option (List ℝ)) (which_ones : String) (kmrad lonc latc : ℝ)
    (h : qc_subset wod_dbase kmrad lonc latc = []) :
    search_assemble_radavg E wod_dbase (lonc :: lons) (latc :: lats) std_z which_ones kmrad =
      search_assemble_radavg E wod_dbase lons lats std_z which_ones kmrad := by
  simp only [search_assemble_radavg, List.zip_cons_cons, radavg_loop,
    point_result_skip E wod_dbase (std_z.getD default_std_z) which_ones kmrad lonc latc h]
  rfl

/-- C1, witness: prepending a query point with an empty subset leaves the
output untouched. -/
theorem claim_C1_witness :
    search_assemble_radavg constEngine [] [3] [4] (some [0]) "N2" 100 =
      search_assemble_radavg constEngine [] [] [] (some [0]) "N2" 100 :=
  claim_C1_amended constEngine [] [] [] (some [0]) "N2" 100 3 4 rfl

/-! ### Claim C9: the midpoint pressure axis -/

theorem wrap_regrid_eq_mapM (l : List N2Tup) (p_arr : List (MArr ℝ)) (std_z : List ℝ) :
    wrap_regrid_2_std_z (some l) p_arr std_z "N2" =
      match l.mapM (regrid3 std_z) with
      | some out => Except.ok out
      | none => Except.error PyErr.valueError := by
  induction l with
  | nil => rfl
  | cons t ts ih =>
    simp only [wrap_regrid_2_std_z, if_pos rfl] at ih ⊢
    simp only [List.flatMap_cons, List.cons_append, List.nil_append, List.mapM_cons]
    rcases h1 : z_pinterp t.N2 t.p_mid std_z with _ | r1
    · simp [regrid3, h1]
    · rcases h2 : z_pinterp t.alpha t.p_mid std_z with _ | r2
      · simp [regrid3, h1, h2]
      · rcases h3 : z_pinterp t.beta t.p_mid std_z with _ | r3
        · simp [regrid3, h1, h2, h3]
        · rcases hrest : (ts.flatMap fun u =>
              [z_pinterp u.N2 u.p_mid std_z, z_pinterp u.alpha u.p_mid std_z,
                z_pinterp u.beta u.p_mid std_z]).mapM id with _ | rs
          · rw [hrest] at ih
            rcases hr2 : ts.mapM (regrid3 std_z) with _ | os
            · simp [regrid3, h1, h2, h3, hrest, hr2]
            · rw [hr2] at ih
              simp at ih
          · rw [hrest] at ih
            rcases hr2 : ts.mapM (regrid3 std_z) with _ | os
            · rw [hr2] at ih
              simp at ih
            · rw [hr2] at ih
              simp only [if_true] at ih
              rw [Except.ok.injEq] at ih
              simp [regrid3, h1, h2, h3, hrest, hr2, regroup3, ih]

/-- C9: for the `'N2'` selector, `wrap_regrid_2_std_z` ignores the
profiles' original pressure axes (`p_arr` — any two values give the same
result) and regrids each of the three channels of every profile's derived
tuple — `var_arr[:1] + var_arr[2:]`, that is buoyancy frequency squared and
the alpha/beta coefficients — against the SECOND element `var_arr[1]` of
that tuple, the midpoint pressure axis returned by the engine. -/
theorem claim_C9 (l : List N2Tup) (p_arr p_arr2 : List (MArr ℝ)) (std_z : List ℝ) :
    wrap_regrid_2_std_z (some l) p_arr std_z "N2" =
        wrap_regrid_2_std_z (some l) p_arr2 std_z "N2" ∧
    wrap_regrid_2_std_z (some l) p_arr std_z "N2" =
      match l.mapM (regrid3 std_z) with
      | some out => Except.ok out
      | none => Except.error PyErr.valueError :=
  ⟨rfl, wrap_regrid_eq_mapM l p_arr std_z⟩

/-! ### Permutation plumbing for claim C2 -/

theorem lonlat_inside_map (wod_dbase : List WodRecord) (pos : ℝ × ℝ) (kmrad : ℝ) :
    lonlat_inside_km_radius (wod_dbase.map (·.lon)) (wod_dbase.map (·.lat)) pos kmrad =
      wod_dbase.map (inside_rec pos kmrad) := by
  induction wod_dbase with
  | nil => rfl
  | cons r t ih =>
    simp only [List.map_cons, lonlat_inside_km_radius, List.zipWith_cons_cons] at ih ⊢
    rw [ih]
    rfl

theorem applyMask_map_filter {β : Type} (f : β → Bool) :
    ∀ l : List β, applyMask l (l.map f) = l.filter f := by
  intro l
  induction l with
  | nil => rfl
  | cons a t ih =>
    simp only [applyMask, List.map_cons, List.zip_cons_cons, List.filterMap_cons,
      List.filter_cons] at ih ⊢
    by_cases h : f a = true
    · simp only [h, if_true, ih]
    · simp only [h, Bool.false_eq_true, if_false, ih]

theorem qc_subset_eq_filter (wod_dbase : List WodRecord) (kmrad lonc latc : ℝ) :
    qc_subset wod_dbase kmrad lonc latc =
      (wod_dbase.filter (inside_rec (lonc, latc) kmrad)).filter
        fun r => decide (r.pt_qc = 0) && decide (r.ps_qc = 0) && decide (r.dpm ≤ 10) := by
  simp only [qc_subset, lonlat_inside_map, applyMask_map_filter, quik_quality_control]

theorem qc_subset_perm (wod_dbase dbase2 : List WodRecord) (kmrad lonc latc : ℝ)
    (hp : wod_dbase.Perm dbase2) :
    (qc_subset wod_dbase kmrad lonc latc).Perm (qc_subset dbase2 kmrad lonc latc) := by
  rw [qc_subset_eq_filter, qc_subset_eq_filter]
  exact (hp.filter _).filter _

theorem derive_variables_N2 (E : N2Engine) (dbase : List WodRecord) :
    derive_variables E dbase "N2" = .ok (some (dbase.map (n2Of E))) := by
  simp [derive_variables]

theorem mapM_option_cons {β γ : Type} (f : β → Option γ) (a : β) (l : List β) :
    (a :: l).mapM f = (f a).bind fun x => (l.mapM f).bind fun xs => some (x :: xs) := by
  rw [List.mapM_cons]
  rfl

theorem mapM_option_perm {β γ : Type} (f : β → Option γ) {l1 l2 : List β}
    (hp : l1.Perm l2) :
    (l1.mapM f = none → l2.mapM f = none) ∧
      ∀ r1, l1.mapM f = some r1 → ∃ r2, l2.mapM f = some r2 ∧ r1.Perm r2 := by
  induction hp with
  | nil => exact ⟨fun h => h, fun r1 h => ⟨r1, h, List.Perm.refl r1⟩⟩
  | cons a hperm ih =>
    rename_i t1 t2
    rw [mapM_option_cons, mapM_option_cons]
    rcases ha : f a with _ | y
    · exact ⟨fun _ => rfl, fun r1 h => by simp at h⟩
    · constructor
      · intro h
        simp only [Option.some_bind] at h ⊢
        rcases hm : t1.mapM f with _ | xs
        · rw [ih.1 hm]
          rfl
        · rw [hm] at h
          simp at h
      · intro r1 h
        simp only [Option.some_bind] at h ⊢
        rcases hm : t1.mapM f with _ | xs
        · rw [hm] at h
          simp at h
        · rw [hm] at h
          simp only [Option.some_bind, Option.some.injEq] at h
          obtain ⟨r2, hr2, hpr⟩ := ih.2 xs hm
          refine ⟨y :: r2, ?_, ?_⟩
          · rw [hr2]
            rfl
          · rw [← h]
            exact hpr.cons y
  | swap a b t =>
    rw [mapM_option_cons, mapM_option_cons, mapM_option_cons, mapM_option_cons]
    rcases ha : f a with _ | x <;> rcases hb : f b with _ | y
    · exact ⟨fun _ => rfl, fun r1 h => by simp at h⟩
    · exact ⟨fun _ => rfl, fun r1 h => by simp at h⟩
    · refine ⟨fun _ => rfl, fun r1 h => ?_⟩
      simp only [Option.some_bind] at h
      rcases hm : t.mapM f with _ | xs <;> rw [hm] at h <;> simp at h
    · constructor
      · intro h
        simp only [Option.some_bind] at h ⊢
        rcases hm : t.mapM f with _ | xs
        · rfl
        · rw [hm] at h
          simp at h
      · intro r1 h
        simp only [Option.some_bind] at h ⊢
        rcases hm : t.mapM f with _ | xs
        · rw [hm] at h
          simp at h
        · rw [hm] at h
          simp only [Option.some_bind, Option.some.injEq] at h ⊢
          refine ⟨x :: y :: xs, rfl, ?_⟩
          rw [← h]
          exact List.Perm.swap x y xs
  | trans h12 h23 ih12 ih23 =>
    constructor
    · intro h
      exact ih23.1 (ih12.1 h)
    · intro r1 h
      obtain ⟨r2, hr2, hp2⟩ := ih12.2 r1 h
      obtain ⟨r3, hr3, hp3⟩ := ih23.2 r2 hr2
      exact ⟨r3, hr3, hp2.trans hp3⟩

theorem mapM_option_some_facts {β γ : Type} (f : β → Option γ) :
    ∀ (l : List β) (r : List γ), l.mapM f = some r →
      r.length = l.length ∧ ∀ y ∈ r, ∃ x ∈ l, f x = some y := by
  intro l
  induction l with
  | nil =>
    intro r h
    rw [List.mapM_nil] at h
    simp only [pure, Option.some.injEq] at h
    subst h
    exact ⟨rfl, by simp⟩
  | cons a t ih =>
    intro r h
    rw [mapM_option_cons] at h
    rcases ha : f a with _ | y
    · rw [ha] at h
      simp at h
    · rw [ha, Option.some_bind] at h
      rcases hm : t.mapM f with _ | xs
      · rw [hm] at h
        simp at h
      · rw [hm, Option.some_bind, Option.some.injEq] at h
        subst h
        obtain ⟨hlen, hall⟩ := ih xs hm
        refine ⟨by simp [hlen], ?_⟩
        intro z hz
        rcases List.mem_cons.1 hz with rfl | hz
        · exact ⟨a, by simp, ha⟩
        · obtain ⟨x, hx, hfx⟩ := hall z hz
          exact ⟨x, List.mem_cons.2 (Or.inr hx), hfx⟩

theorem transpose3_dims {β : Type} :
    ∀ (r1 r2 r3 : List β) (L : ℕ), r1.length = L → r2.length = L → r3.length = L →
      (transpose3 r1 r2 r3).length = L ∧ ∀ row ∈ transpose3 r1 r2 r3, row.length = 3 := by
  intro r1
  induction r1 with
  | nil =>
    intro r2 r3 L h1 h2 h3
    cases r2 <;> cases r3 <;> simp_all [transpose3]
  | cons a t1 ih =>
    intro r2 r3 L h1 h2 h3
    cases r2 with
    | nil =>
      exfalso
      simp only [List.length_nil, List.length_cons] at h1 h2 h3
      omega
    | cons b t2 =>
      cases r3 with
      | nil =>
        exfalso
        simp only [List.length_nil, List.length_cons] at h1 h2 h3
        omega
      | cons c t3 =>
        cases L with
        | zero =>
          exfalso
          simp only [List.length_nil, List.length_cons] at h1 h2 h3
          omega
        | succ L2 =>
          simp only [List.length_cons, Nat.succ.injEq] at h1 h2 h3
          obtain ⟨hl, hrow⟩ := ih t2 t3 L2 h1 h2 h3
          refine ⟨by simp [transpose3, hl], ?_⟩
          intro row hrow2
          simp only [transpose3] at hrow2
          rcases List.mem_cons.1 hrow2 with rfl | hrow2
          · rfl
          · exact hrow row hrow2

theorem regrid3_dims (std_z : List ℝ) (t : N2Tup) (m : Grid3)
    (h : regrid3 std_z t = some m) : grid_dims std_z.length 3 m := by
  simp only [regrid3] at h
  rcases h1 : z_pinterp t.N2 t.p_mid std_z with _ | r1 <;> rw [h1] at h
  · simp at h
  · rcases h2 : z_pinterp t.alpha t.p_mid std_z with _ | r2 <;> rw [h2] at h
    · simp at h
    · rcases h3 : z_pinterp t.beta t.p_mid std_z with _ | r3 <;> rw [h3] at h
      · simp at h
      · simp only [Option.some.injEq] at h
        subst h
        exact transpose3_dims r1 r2 r3 std_z.length
          (z_pinterp_some_length t.N2 t.p_mid std_z r1 h1)
          (z_pinterp_some_length t.alpha t.p_mid std_z r2 h2)
          (z_pinterp_some_length t.beta t.p_mid std_z r3 h3)

/-! ### Permutation invariance of the NaN-ignoring statistics -/

theorem sortR_sorted (l : List ℝ) : (sortR l).Sorted (· ≤ ·) := by
  have h := stableSort_pairwise (fun a b : ℝ => decide (a ≤ b))
    (fun a b c h1 h2 => by
      simp only [decide_eq_true_eq] at h1 h2 ⊢
      exact le_trans h1 h2)
    (fun a b => by
      simp only [decide_eq_true_eq]
      exact le_total a b) l
  exact h.imp fun hxy => of_decide_eq_true hxy

theorem sortR_eq_of_perm (u v : List ℝ) (h : u.Perm v) : sortR u = sortR v :=
  List.eq_of_perm_of_sorted
    ((stableSort_perm _ u).trans (h.trans (stableSort_perm _ v).symm))
    (sortR_sorted u) (sortR_sorted v)

theorem medianR_perm (u v : List ℝ) (h : u.Perm v) : medianR u = medianR v := by
  simp only [medianR, sortR_eq_of_perm u v h, h.length_eq]

theorem stdR_perm (u v : List ℝ) (h : u.Perm v) : stdR u = stdR v := by
  simp only [stdR, h.sum_eq, h.length_eq,
    (h.map fun x => (x - v.sum / (v.length : ℝ)) ^ 2).sum_eq]

theorem quantileR_perm (q : ℝ) (u v : List ℝ) (h : u.Perm v) : quantileR q u = quantileR q v := by
  simp only [quantileR, sortR_eq_of_perm u v h, h.length_eq]

theorem nanApply_perm (f : List ℝ → ℝ) (hf : ∀ u v : List ℝ, u.Perm v → f u = f v)
    (c1 c2 : List (Option ℝ)) (h : c1.Perm c2) : nanApply f c1 = nanApply f c2 := by
  have hp : (c1.filterMap id).Perm (c2.filterMap id) := h.filterMap id
  simp only [nanApply]
  by_cases he : (c1.filterMap id).isEmpty = true
  · rw [List.isEmpty_iff] at he
    rw [he] at hp
    have he2 : c2.filterMap id = [] := hp.symm.eq_nil
    simp [he, he2]
  · have he2 : ¬(c2.filterMap id).isEmpty = true := by
      rw [List.isEmpty_iff] at he ⊢
      intro hcon
      rw [hcon] at hp
      exact he hp.eq_nil
    rw [if_neg he, if_neg he2, hf _ _ hp]

theorem getD_mem {β : Type} (l : List β) (i : ℕ) (d : β) (h : i < l.length) :
    l.getD i d ∈ l := by
  rw [List.getD_eq_getElem?_getD, List.getElem?_eq_getElem h]
  simp only [Option.getD_some]
  exact List.getElem_mem h

theorem stat_axis0_canon (f : List ℝ → ℝ) (v0 : Grid3) (rest : List Grid3) (L C : ℕ)
    (hwf : ∀ m ∈ v0 :: rest, grid_dims L C m) :
    stat_axis0 f (v0 :: rest) = (List.range L).map fun lv => (List.range C).map fun c =>
      nanApply f ((v0 :: rest).map fun m => (m.getD lv []).getD c none) := by
  have hv0 : v0.length = L := (hwf v0 (by simp)).1
  simp only [stat_axis0]
  rw [hv0]
  apply List.map_congr_left
  intro lv hlv
  rw [List.mem_range] at hlv
  have hrow : (v0.getD lv []).length = C :=
    (hwf v0 (by simp)).2 _ (getD_mem v0 lv [] (by omega))
  rw [hrow]

theorem stat_axis0_dims (f : List ℝ → ℝ) (vg : List Grid3) (L C : ℕ) (hne : vg ≠ [])
    (hwf : ∀ m ∈ vg, grid_dims L C m) : grid_dims L C (stat_axis0 f vg) := by
  cases vg with
  | nil => exact absurd rfl hne
  | cons v0 rest =>
    rw [stat_axis0_canon f v0 rest L C hwf]
    constructor
    · simp
    · intro row hrow
      rw [List.mem_map] at hrow
      obtain ⟨lv, _, rfl⟩ := hrow
      simp

theorem stat_axis0_perm (f : List ℝ → ℝ) (hf : ∀ u v : List ℝ, u.Perm v → f u = f v)
    (vg1 vg2 : List Grid3) (hp : vg1.Perm vg2) (L C : ℕ)
    (hwf1 : ∀ m ∈ vg1, grid_dims L C m) : stat_axis0 f vg1 = stat_axis0 f vg2 := by
  have hwf2 : ∀ m ∈ vg2, grid_dims L C m := fun m hm => hwf1 m (hp.mem_iff.2 hm)
  cases vg1 with
  | nil =>
    rw [← hp.nil_eq]
  | cons v0 r =>
    cases vg2 with
    | nil => exact absurd hp.symm.nil_eq (by simp)
    | cons w0 r2 =>
      rw [stat_axis0_canon f v0 r L C hwf1, stat_axis0_canon f w0 r2 L C hwf2]
      apply List.map_congr_left
      intro lv _
      apply List.map_congr_left
      intro c _
      exact nanApply_perm f hf _ _ (hp.map _)

/-! ### Permutation invariance of the whole aggregation -/

theorem point_result_perm (E : N2Engine) (dbase1 dbase2 : List WodRecord) (std_z : List ℝ)
    (which_ones : String) (kmrad lonc latc : ℝ) (hp : dbase1.Perm dbase2) :
    point_result E dbase1 std_z which_ones kmrad lonc latc =
      point_result E dbase2 std_z which_ones kmrad lonc latc := by
  have hsub := qc_subset_perm dbase1 dbase2 kmrad lonc latc hp
  have hlen := hsub.length_eq
  simp only [point_result]
  by_cases h0 : 0 < (qc_subset dbase1 kmrad lonc latc).length
  · rw [if_pos h0, if_pos (by omega)]
    by_cases hall : which_ones = "all"
    · subst hall
      simp [derive_variables]
    · by_cases hn2 : which_ones = "N2"
      · subst hn2
        rw [derive_variables_N2, derive_variables_N2]
        dsimp only
        rw [wrap_regrid_eq_mapM, wrap_regrid_eq_mapM]
        have hmp : ((qc_subset dbase1 kmrad lonc latc).map (n2Of E)).Perm
            ((qc_subset dbase2 kmrad lonc latc).map (n2Of E)) := hsub.map _
        have hfacts := mapM_option_perm (regrid3 std_z) hmp
        rcases hm1 : ((qc_subset dbase1 kmrad lonc latc).map (n2Of E)).mapM (regrid3 std_z)
          with _ | r1
        · rw [hfacts.1 hm1]
        · obtain ⟨r2, hr2, hpr⟩ := hfacts.2 r1 hm1
          rw [hr2]
          have hwf1 : ∀ m ∈ r1, grid_dims std_z.length 3 m := by
            intro m hm
            obtain ⟨x, _, hfx⟩ := (mapM_option_some_facts (regrid3 std_z) _ r1 hm1).2 m hm
            exact regrid3_dims std_z x m hfx
          dsimp only
          rw [stat_axis0_perm medianR medianR_perm r1 r2 hpr std_z.length 3 hwf1,
            stat_axis0_perm stdR stdR_perm r1 r2 hpr std_z.length 3 hwf1,
            stat_axis0_perm (quantileR (5/100)) (quantileR_perm (5/100)) r1 r2 hpr
              std_z.length 3 hwf1,
            stat_axis0_perm (quantileR (95/100)) (quantileR_perm (95/100)) r1 r2 hpr
              std_z.length 3 hwf1]
      · simp only [derive_variables, if_neg hall, if_neg hn2]
        simp [wrap_regrid_2_std_z, hn2]
  · rw [if_neg h0, if_neg (by omega)]

theorem radavg_loop_perm (E : N2Engine) (dbase1 dbase2 : List WodRecord) (std_z : List ℝ)
    (which_ones : String) (kmrad : ℝ) (hp : dbase1.Perm dbase2) :
    ∀ pts : List (ℝ × ℝ),
      radavg_loop E dbase1 std_z which_ones kmrad pts =
        radavg_loop E dbase2 std_z which_ones kmrad pts := by
  intro pts
  induction pts with
  | nil => rfl
  | cons pt rest ih =>
    simp only [radavg_loop,
      point_result_perm E dbase1 dbase2 std_z which_ones kmrad pt.1 pt.2 hp, ih]

theorem search_assemble_perm (E : N2Engine) (dbase1 dbase2 : List WodRecord)
    (lon_arr lat_arr : List ℝ) (std_z : Option (List ℝ)) (which_ones : String) (kmrad : ℝ)
    (hp : dbase1.Perm dbase2) :
    search_assemble_radavg E dbase1 lon_arr lat_arr std_z which_ones kmrad =
      search_assemble_radavg E dbase2 lon_arr lat_arr std_z which_ones kmrad :=
  radavg_loop_perm E dbase1 dbase2 (std_z.getD default_std_z) which_ones kmrad hp
    (lon_arr.zip lat_arr)

/-! ### Shape and row-correspondence of the successful aggregation -/

theorem point_result_dims (E : N2Engine) (dbase : List WodRecord) (std_z : List ℝ)
    (kmrad lonc latc : ℝ) (s : Grid3 × Grid3 × Grid3 × Grid3)
    (h : point_result E dbase std_z "N2" kmrad lonc latc = .ok (some s)) :
    grid_dims std_z.length 3 s.1 ∧ grid_dims std_z.length 3 s.2.1 ∧
      grid_dims std_z.length 3 s.2.2.1 ∧ grid_dims std_z.length 3 s.2.2.2 := by
  simp only [point_result] at h
  by_cases h0 : 0 < (qc_subset dbase kmrad lonc latc).length
  · rw [if_pos h0, derive_variables_N2] at h
    dsimp only at h
    rw [wrap_regrid_eq_mapM] at h
    rcases hm : ((qc_subset dbase kmrad lonc latc).map (n2Of E)).mapM (regrid3 std_z)
      with _ | r <;> rw [hm] at h
    · simp at h
    · simp only [Except.ok.injEq, Option.some.injEq] at h
      subst h
      obtain ⟨hrlen, hall⟩ := mapM_option_some_facts (regrid3 std_z) _ r hm
      have hne : r ≠ [] := by
        intro hcon
        rw [hcon] at hrlen
        simp at hrlen
        omega
      have hwf : ∀ m ∈ r, grid_dims std_z.length 3 m := by
        intro m hmem
        obtain ⟨x, _, hfx⟩ := hall m hmem
        exact regrid3_dims std_z x m hfx
      exact ⟨stat_axis0_dims _ r _ _ hne hwf, stat_axis0_dims _ r _ _ hne hwf,
        stat_axis0_dims _ r _ _ hne hwf, stat_axis0_dims _ r _ _ hne hwf⟩
  · rw [if_neg h0] at h
    simp at h

theorem radavg_loop_ok_char (E : N2Engine) (dbase : List WodRecord) (std_z : List ℝ)
    (which_ones : String) (kmrad : ℝ) :
    ∀ (pts : List (ℝ × ℝ)) (out : List Grid3 × List Grid3 × List Grid3 × List Grid3),
    (∀ pt ∈ pts, qc_subset dbase kmrad pt.1 pt.2 ≠ []) →
    radavg_loop E dbase std_z which_ones kmrad pts = .ok out →
    (out.1.length = pts.length ∧ out.2.1.length = pts.length ∧
      out.2.2.1.length = pts.length ∧ out.2.2.2.length = pts.length) ∧
    ∀ i < pts.length, ∃ s,
      point_result E dbase std_z which_ones kmrad (pts.getD i (0, 0)).1 (pts.getD i (0, 0)).2 =
        .ok (some s) ∧
      out.1.getD i [] = s.1 ∧ out.2.1.getD i [] = s.2.1 ∧
      out.2.2.1.getD i [] = s.2.2.1 ∧ out.2.2.2.getD i [] = s.2.2.2 := by
  intro pts
  induction pts with
  | nil =>
    intro out _ hok
    simp only [radavg_loop, Except.ok.injEq] at hok
    subst hok
    refine ⟨⟨rfl, rfl, rfl, rfl⟩, ?_⟩
    intro i hi
    simp at hi
  | cons pt rest ih =>
    intro out hne hok
    simp only [radavg_loop] at hok
    rcases hpr : point_result E dbase std_z which_ones kmrad pt.1 pt.2 with e | os <;>
      rw [hpr] at hok
    · simp at hok
    · rcases os with _ | s
      · exact absurd (point_result_ok_none_iff E dbase std_z which_ones kmrad pt.1 pt.2 hpr)
          (hne pt (by simp))
      · rcases hrest : radavg_loop E dbase std_z which_ones kmrad rest with e | acc <;>
          rw [hrest] at hok
        · simp at hok
        · simp only [Except.ok.injEq] at hok
          subst hok
          obtain ⟨hlens, hcorr⟩ := ih acc (fun q hq => hne q (List.mem_cons.2 (Or.inr hq)))
            hrest
          refine ⟨⟨by simp [hlens.1], by simp [hlens.2.1], by simp [hlens.2.2.1],
            by simp [hlens.2.2.2]⟩, ?_⟩
          intro i hi
          cases i with
          | zero => exact ⟨s, hpr, rfl, rfl, rfl, rfl⟩
          | succ j =>
            have hj : j < rest.length := by
              simp only [List.length_cons] at hi
              omega
            obtain ⟨s2, hs2, hg⟩ := hcorr j hj
            exact ⟨s2, by simpa using hs2, by simpa using hg⟩

/-- C2: the externally observable contract of the aggregation, as the code
implements it.  (1) The result is invariant under any permutation of the
catalog records.  (2) When every query point's filtered subset is non-empty
and the run returns successfully, the four outputs have one row per query
point, in query order — row `i` is exactly the statistic quadruple
`point_result` computes for query point `i` — and every row has shape
`(len std_z, 3)`. -/
theorem claim_C2 (E : N2Engine) (wod_dbase : List WodRecord) (lon_arr lat_arr : List ℝ)
    (stdzL : List ℝ) (kmrad : ℝ) :
    (∀ dbase2, wod_dbase.Perm dbase2 →
      search_assemble_radavg E wod_dbase lon_arr lat_arr (some stdzL) "N2" kmrad =
        search_assemble_radavg E dbase2 lon_arr lat_arr (some stdzL) "N2" kmrad) ∧
    ∀ out, search_assemble_radavg E wod_dbase lon_arr lat_arr (some stdzL) "N2" kmrad =
        .ok out →
      (∀ pt ∈ lon_arr.zip lat_arr, qc_subset wod_dbase kmrad pt.1 pt.2 ≠ []) →
      (out.1.length = (lon_arr.zip lat_arr).length ∧
        out.2.1.length = (lon_arr.zip lat_arr).length ∧
        out.2.2.1.length = (lon_arr.zip lat_arr).length ∧
        out.2.2.2.length = (lon_arr.zip lat_arr).length) ∧
      (∀ m ∈ out.1, grid_dims stdzL.length 3 m) ∧
      (∀ m ∈ out.2.1, grid_dims stdzL.length 3 m) ∧
      (∀ m ∈ out.2.2.1, grid_dims stdzL.length 3 m) ∧
      (∀ m ∈ out.2.2.2, grid_dims stdzL.length 3 m) ∧
      ∀ i < (lon_arr.zip lat_arr).length, ∃ s,
        point_result E wod_dbase stdzL "N2" kmrad
            ((lon_arr.zip lat_arr).getD i (0, 0)).1 ((lon_arr.zip lat_arr).getD i (0, 0)).2 =
          .ok (some s) ∧
        out.1.getD i [] = s.1 ∧ out.2.1.getD i [] = s.2.1 ∧
        out.2.2.1.getD i [] = s.2.2.1 ∧ out.2.2.2.getD i [] = s.2.2.2 := by
  constructor
  · intro dbase2 hp
    exact search_assemble_perm E wod_dbase dbase2 lon_arr lat_arr (some stdzL) "N2" kmrad hp
  · intro out hok hne
    have hchar := radavg_loop_ok_char E wod_dbase stdzL "N2" kmrad (lon_arr.zip lat_arr) out
      hne hok
    obtain ⟨hlens, hcorr⟩ := hchar
    have hdim : ∀ (proj : List Grid3 × List Grid3 × List Grid3 × List Grid3 → List Grid3),
        (proj = (·.1) ∨ proj = (·.2.1) ∨ proj = (·.2.2.1) ∨ proj = (·.2.2.2)) →
        ∀ m ∈ proj out, grid_dims stdzL.length 3 m := by
      intro proj hproj m hm
      have hplen : (proj out).length = (lon_arr.zip lat_arr).length := by
        rcases hproj with rfl | rfl | rfl | rfl
        · exact hlens.1
        · exact hlens.2.1
        · exact hlens.2.2.1
        · exact hlens.2.2.2
      obtain ⟨i, hi, rfl⟩ := List.getElem_of_mem hm
      have hi2 : i < (lon_arr.zip lat_arr).length := by omega
      obtain ⟨s, hs, hg⟩ := hcorr i hi2
      have hgetD : (proj out).getD i [] = (proj out)[i] := by
        rw [List.getD_eq_getElem?_getD, List.getElem?_eq_getElem hi]
        simp
      have hd := point_result_dims E wod_dbase stdzL kmrad _ _ s hs
      rcases hproj with rfl | rfl | rfl | rfl
      · rw [← hgetD, hg.1]
        exact hd.1
      · rw [← hgetD, hg.2.1]
        exact hd.2.1
      · rw [← hgetD, hg.2.2.1]
        exact hd.2.2.1
      · rw [← hgetD, hg.2.2.2]
        exact hd.2.2.2
    exact ⟨hlens, hdim _ (Or.inl rfl), hdim _ (Or.inr (Or.inl rfl)),
      hdim _ (Or.inr (Or.inr (Or.inl rfl))), hdim _ (Or.inr (Or.inr (Or.inr rfl))), hcorr⟩

/-- C2, counterexample to the claim as stated: with an empty catalog the
single query point's subset is empty and is skipped (nothing appended), so
the run returns arrays with ZERO rows where the claim demands shape
`(1, L, C)` — row `i` of the output cannot correspond to query point `i`
once any subset is empty. -/
theorem claim_C2_cex :
    search_assemble_radavg constEngine [] [7] [7] (some [0, 5, 10]) "N2" 100 =
      .ok ([], [], [], []) ∧
    (0 : ℕ) ≠ [((7 : ℝ), (7 : ℝ))].length := by
  exact ⟨rfl, by decide⟩

theorem point_result_origin :
    point_result constEngine [originRecord] [0] "N2" 100 0 0 =
      .ok (some ([[none, none, none]], [[none, none, none]],
        [[none, none, none]], [[none, none, none]])) := by
  simp only [point_result, qc_subset_origin]
  rfl

theorem search_origin :
    search_assemble_radavg constEngine [originRecord] [0] [0] (some [0]) "N2" 100 =
      .ok ([[[none, none, none]]], [[[none, none, none]]],
        [[[none, none, none]]], [[[none, none, none]]]) := by
  simp only [search_assemble_radavg, Option.getD_some, List.zip_cons_cons, List.zip_nil_right,
    radavg_loop]
  rw [point_result_origin]

/-- C2, witness: with one catalog record at the single query point, the run
succeeds and produces exactly one row (per output) of shape `(1, 3)`. -/
theorem claim_C2_witness :
    ([[[(none : Option ℝ), none, none]]] : List Grid3).length =
      (([0] : List ℝ).zip ([0] : List ℝ)).length :=
  ((claim_C2 constEngine [originRecord] [0] [0] [0] 100).2
    ([[[none, none, none]]], [[[none, none, none]]],
      [[[none, none, none]]], [[[none, none, none]]])
    search_origin
    (by
      intro pt hpt
      simp only [List.zip_cons_cons, List.zip_nil_right, List.mem_singleton] at hpt
      subst hpt
      rw [show (((0 : ℝ), (0 : ℝ)).1) = (0 : ℝ) from rfl,
        show (((0 : ℝ), (0 : ℝ)).2) = (0 : ℝ) from rfl, qc_subset_origin]
      simp)).1.1

end WodProfDb
